import Mathlib

/-!
# Qscopes-Webapp: scan controller, telemetry drain and grid reconstructor

A shallow embedding of the C sources under `Streamlit_app/src`:

* `Host_run.c`      : `scan_voltages`, the host-driven raster sweep;
* `scanandplot.c`   : `ReadLuaInfo` (drain loop) and `ParseAndPlotHeatmap`;
* `scanwitharg.c`   : `ReadLuaInfo` with the idle timeout and the abort write.

Voltages are exact rationals, bytes are `Char`s, the device is an explicit
sequence of observations, and every effect of the C code (register writes and
reads, bytes put to a file) is recorded in the returned state.
-/

namespace Qscopes

/-! ## Loops -/

/-- The C loop `for (i = 0; i < n; i++) s = body(i, s)`. -/
def forLoop {σ : Type} : Nat → (Nat → σ → σ) → σ → σ
  | 0, _, s => s
  | n + 1, body, s => body n (forLoop n body s)

/-! ## Host_run.c -/

/-- Register traffic and dwell of the host-driven sweep, in program order. -/
inductive Event where
  /-- `LJM_eWriteAddress(handle, address, 1, value)` -/
  | write (address : Nat) (value : ℚ)
  /-- `LJM_eReadAddress(handle, address, 1, &count)` -/
  | read (address : Nat)
  /-- `nanosleep(&ts, NULL)` for `dwell_ms` milliseconds -/
  | sleep (dwell_ms : ℚ)
  deriving DecidableEq

/-- `const double MAX_VOLT = 5.0;` -/
def MAX_VOLT : ℚ := 5

/-- `const double MIN_VOLT = -5.0;` -/
def MIN_VOLT : ℚ := -5

/-- The two guards of lines 60-61 and 68-69:
`if (v > MAX_VOLT) v = MAX_VOLT; if (v < MIN_VOLT) v = MIN_VOLT;`. -/
def clampVolt (v : ℚ) : ℚ :=
  let v1 := if v > MAX_VOLT then MAX_VOLT else v
  if v1 < MIN_VOLT then MIN_VOLT else v1

/-- Mutable state of `scan_voltages` while the sweep runs. -/
structure SweepState where
  /-- register writes, register reads and sleeps issued so far, oldest first -/
  trace : List Event
  /-- number of counter reads (address 3136) issued so far -/
  nreads : Nat
  /-- the `steps` by `steps` array `matrix` -/
  matrix : List (List ℚ)

/-- The assignment `matrix[i][j] = v`. -/
def setCell (m : List (List ℚ)) (i j : Nat) (v : ℚ) : List (List ℚ) :=
  m.set i ((m.getD i []).set j v)

/-- Body of the inner loop (lines 67-83) for cell `(i, j)`.  `counter k` is the
value the device returns for the `k`-th counter read of the run (from 0).
Line 72 passes `current_y` to the X-axis DAC although `current_x` has just been
computed; the embedding keeps the source as written. -/
def cellBody (x_start x_step dwell_ms : ℚ) (counter : Nat → ℚ) (current_y : ℚ)
    (i j : Nat) (s : SweepState) : SweepState :=
  let current_x := clampVolt (x_start + (j : ℚ) * x_step)
  -- `current_x` is computed and then not used
  let _unused := current_x
  let t1 := s.trace ++ [Event.write 30010 current_y]
  -- first read, before the dwell; its value is overwritten below
  let _count0 := counter s.nreads
  let t2 := t1 ++ [Event.read 3136]
  let t3 := t2 ++ [Event.sleep dwell_ms]
  let count := counter (s.nreads + 1)
  let t4 := t3 ++ [Event.read 3136]
  { trace := t4, nreads := s.nreads + 2, matrix := setCell s.matrix i j count }

/-- Body of the outer loop (lines 59-84) for row `i`. -/
def rowBody (x_start y_start x_step y_step dwell_ms : ℚ) (counter : Nat → ℚ)
    (steps : Nat) (i : Nat) (s : SweepState) : SweepState :=
  let current_y := clampVolt (y_start + (i : ℚ) * y_step)
  let s1 : SweepState := { s with trace := s.trace ++ [Event.write 30008 current_y] }
  forLoop steps (cellBody x_start x_step dwell_ms counter current_y i) s1

/-- What a call of `scan_voltages` leaves behind. -/
structure ScanResult where
  /-- register writes, register reads and sleeps, oldest first -/
  trace : List Event
  /-- the in-memory matrix after the sweep; `none` when the plan was rejected -/
  matrix : Option (List (List ℚ))
  /-- the rows written to `scan_matrix.txt`; `none` when the file was never
  opened for writing -/
  file : Option (List (List ℚ))

/-- The sweep of lines 41-85: allocation of the matrix and the two nested loops. -/
def sweep (x_start y_start x_end y_end : ℚ) (steps : Int) (dwell_ms : ℚ)
    (counter : Nat → ℚ) : SweepState :=
  let x_step := (x_end - x_start) / ((steps - 1 : Int) : ℚ)
  let y_step := (y_end - y_start) / ((steps - 1 : Int) : ℚ)
  let n := steps.toNat
  let matrix := List.replicate n (List.replicate n (0 : ℚ))
  forLoop n (rowBody x_start y_start x_step y_step dwell_ms counter n)
    { trace := [], nreads := 0, matrix := matrix }

/-- `scan_voltages` of `Host_run.c`.  `counter` is the device's answer to each
counter read and `fopenOk` tells whether `fopen("scan_matrix.txt", "w")`
succeeds. -/
def scan_voltages (x_start y_start x_end y_end : ℚ) (steps : Int) (dwell_ms : ℚ)
    (counter : Nat → ℚ) (fopenOk : Bool) : ScanResult :=
  if steps < 2 then
    { trace := [], matrix := none, file := none }
  else
    let s := sweep x_start y_start x_end y_end steps dwell_ms counter
    if fopenOk = false then
      -- `perror("Failed to open file"); return;`
      { trace := s.trace, matrix := some s.matrix, file := none }
    else
      { trace := s.trace ++ [Event.write 30008 0, Event.write 30010 0],
        matrix := some s.matrix,
        file := some s.matrix }

/-- The register writes of a trace, as `(address, value)` pairs, oldest first. -/
def writesOf : List Event → List (Nat × ℚ)
  | [] => []
  | Event.write a v :: t => (a, v) :: writesOf t
  | _ :: t => writesOf t

/-- The values written to one address, oldest first. -/
def writesTo (address : Nat) (t : List Event) : List ℚ :=
  ((writesOf t).filter (fun w => w.1 = address)).map (fun w => w.2)

/-- Number of reads of one address in a trace. -/
def readsOf (address : Nat) : List Event → Nat
  | [] => 0
  | Event.read a :: t => (if a = address then 1 else 0) + readsOf address t
  | _ :: t => readsOf address t

/-- The cell `m[i][j]`, when both indices are in range. -/
def cell (m : List (List ℚ)) (i j : Nat) : Option ℚ :=
  (m[i]?).bind (fun row => row[j]?)

/-- A matrix of `n` rows, each of `n` entries. -/
def Square (n : Nat) (m : List (List ℚ)) : Prop :=
  m.length = n ∧ ∀ row ∈ m, row.length = n

/-- What one cell of the sweep does to the device, in order: the write to the
X-axis DAC, the first counter read, the dwell, the second counter read. -/
def cellEvents (current_y dwell_ms : ℚ) : List Event :=
  [Event.write 30010 current_y, Event.read 3136, Event.sleep dwell_ms, Event.read 3136]

/-- What one row of `n` cells does to the device: the write to the Y-axis DAC,
then the cells one after the other. -/
def rowEvents (n : Nat) (current_y dwell_ms : ℚ) : List Event :=
  Event.write 30008 current_y :: (List.replicate n (cellEvents current_y dwell_ms)).flatten

/-- What the first `i` rows of a sweep of `n` columns do to the device. -/
def sweepEvents (y_start y_step dwell_ms : ℚ) (n : Nat) : Nat → List Event
  | 0 => []
  | i + 1 =>
    sweepEvents y_start y_step dwell_ms n i
      ++ rowEvents n (clampVolt (y_start + (i : ℚ) * y_step)) dwell_ms

/-! ## C strings -/

/-- The terminating byte of a C string. -/
def NUL : Char := Char.ofNat 0

/-- The C string a buffer holds: its bytes before the first NUL. -/
def cstr (buf : List Char) : List Char :=
  buf.takeWhile (fun c => c != NUL)

/-- `strlen(buf)`. -/
def strlen (buf : List Char) : Nat :=
  (cstr buf).length

/-- Whether `needle` starts at some position of the string `hay`. -/
def occursIn (needle : List Char) : List Char → Bool
  | [] => needle.isEmpty
  | c :: hay => needle.isPrefixOf (c :: hay) || occursIn needle hay

/-- `strstr(buf, needle) != NULL`: the search sees `buf` as a C string, so it
stops at the first NUL byte. -/
def strstr (buf needle : List Char) : Bool :=
  occursIn needle (cstr buf)

/-- `const char *searchString = "2D Voltage Scan Completed.";` -/
def searchString : List Char := "2D Voltage Scan Completed.".toList

/-! ## Telemetry drain: what the device does in one loop iteration -/

/-- One iteration's view of the device.  `numBytes` below is `(int)numBytes`,
a whole number. -/
inductive Obs where
  /-- `LJM_eReadName(handle, "LUA_DEBUG_NUM_BYTES", &numBytes)` fails -/
  | pollError
  /-- the poll reports `numBytes` and `LJM_eReadNameByteArray` fails -/
  | readError (numBytes : Nat)
  /-- the poll reports `data.length` bytes and the byte-array read delivers `data`;
  `chunk []` is a poll that reports zero bytes -/
  | chunk (data : List Char)
  deriving DecidableEq

/-- The byte count the poll of an iteration reports, when the poll succeeds. -/
def Obs.numBytes : Obs → Option Nat
  | Obs.pollError => none
  | Obs.readError n => some n
  | Obs.chunk data => some data.length

/-- How a drain stands. -/
inductive DrainStatus where
  /-- the loop is still polling -/
  | running
  /-- the sentinel was found (`break`, lines 110-113 of scanandplot.c) -/
  | completed
  /-- the idle window expired (`break`, line 127 of scanwitharg.c) -/
  | timedOut
  /-- a register transfer failed and `ErrorCheck` ended the session -/
  | transportError
  /-- `lua_output.txt` could not be opened; the function returned at once -/
  | fileError
  deriving DecidableEq

/-- Modelled from the spec: `ErrorCheck` of `LJM_Utilities.h` is not among the
sources.  Section 7 of the spec: a register read failure is surfaced
immediately, not retried, and the session is aborted.  `ErrorCheck err st` is
the status after the call when the loop was in status `st`. -/
def ErrorCheck (err : Bool) (st : DrainStatus) : DrainStatus :=
  if err then DrainStatus.transportError else st

/-- The loop `for (byteIter = 0; byteIter < numBytes; byteIter++)
fputc(aBytes[byteIter], fp);`. -/
def fputcLoop (aBytes : List Char) (numBytes : Nat) (fp : List Char) : List Char :=
  forLoop numBytes (fun byteIter out => out ++ [aBytes.getD byteIter NUL]) fp

namespace ScanAndPlot

/-- State of `ReadLuaInfo` (scanandplot.c). -/
structure DrainState where
  /-- bytes put to `lua_output.txt`, oldest first -/
  sink : List Char
  /-- reads of `LUA_DEBUG_NUM_BYTES` issued -/
  polls : Nat
  /-- calls of `LJM_eReadNameByteArray` issued -/
  chunkReads : Nat
  status : DrainStatus

/-- One pass through the body of `while (true)` (lines 72-118). -/
def iteration (o : Obs) (st : DrainState) : DrainState :=
  let st1 : DrainState := { st with polls := st.polls + 1 }
  match o with
  | Obs.pollError =>
    { st1 with status := ErrorCheck true st1.status }
  | Obs.readError numBytes =>
    if numBytes = 0 then st1
    else { st1 with chunkReads := st1.chunkReads + 1, status := ErrorCheck true st1.status }
  | Obs.chunk data =>
    let numBytes := data.length
    if numBytes = 0 then st1
    else
      -- `aBytes[(int)numBytes] = 0;`
      let aBytes := data ++ [NUL]
      let sink := fputcLoop aBytes numBytes st1.sink
      if strstr aBytes searchString then
        { sink := sink, polls := st1.polls, chunkReads := st1.chunkReads + 1,
          status := DrainStatus.completed }
      else
        { sink := sink, polls := st1.polls, chunkReads := st1.chunkReads + 1,
          status := ErrorCheck false st1.status }

/-- The loop `while (true)`, run against the observations the device offers.
The loop consumes one observation per iteration and stops consuming at the
first `break` or fatal error; a result still `running` means the observations
ran out while the loop was polling. -/
def drainLoop : List Obs → DrainState → DrainState
  | [], st => st
  | o :: rest, st =>
    if (iteration o st).status = DrainStatus.running then drainLoop rest (iteration o st)
    else iteration o st

/-- `ReadLuaInfo` of scanandplot.c; `fopenOk` tells whether `lua_output.txt`
opens.  Allocation is taken to succeed. -/
def ReadLuaInfo (fopenOk : Bool) (obs : List Obs) : DrainState :=
  if fopenOk then
    drainLoop obs { sink := [], polls := 0, chunkReads := 0, status := DrainStatus.running }
  else
    { sink := [], polls := 0, chunkReads := 0, status := DrainStatus.fileError }

end ScanAndPlot

namespace ScanWithArg

/-- One iteration's view of the device and of the clock in scanwitharg.c. -/
structure TimedObs where
  /-- the value `time(NULL)` returns in this iteration, in seconds -/
  time : Int
  /-- the poll and read of this iteration -/
  obs : Obs
  /-- the bytes that follow the `numBytes`-byte buffer in memory: the buffer of
  line 136 has no terminator, so `strstr` reads on into them -/
  beyond : List Char

/-- State of `ReadLuaInfo` (scanwitharg.c). -/
structure DrainState where
  /-- `lastDataTime` -/
  lastDataTime : Int
  /-- bytes put to `lua_output.txt`, oldest first -/
  sink : List Char
  /-- reads of `LUA_DEBUG_NUM_BYTES` issued -/
  polls : Nat
  /-- calls of `LJM_eReadNameByteArray` issued -/
  chunkReads : Nat
  /-- register writes issued, as `(address, value)`, oldest first -/
  writes : List (Nat × Nat)
  status : DrainStatus

/-- The branch `if ((int)numBytes == 0)` of lines 122-129. -/
def zeroBranch (time : Int) (st1 : DrainState) : DrainState :=
  -- `difftime(time(NULL), lastDataTime) > 10.0`
  if time - st1.lastDataTime > 10 then
    { st1 with writes := st1.writes ++ [(61998, 1279918080)], status := DrainStatus.timedOut }
  else st1

/-- One pass through the body of `while (true)` (lines 118-159). -/
def iteration (o : TimedObs) (st : DrainState) : DrainState :=
  let st1 : DrainState := { st with polls := st.polls + 1 }
  match o.obs with
  | Obs.pollError =>
    { st1 with status := ErrorCheck true st1.status }
  | Obs.readError numBytes =>
    if numBytes = 0 then zeroBranch o.time st1
    else
      { st1 with lastDataTime := o.time, chunkReads := st1.chunkReads + 1,
                 status := ErrorCheck true st1.status }
  | Obs.chunk data =>
    let numBytes := data.length
    if numBytes = 0 then zeroBranch o.time st1
    else
      let sink := fputcLoop data numBytes st1.sink
      if strstr (data ++ o.beyond) searchString then
        { st1 with lastDataTime := o.time, sink := sink, chunkReads := st1.chunkReads + 1,
                   status := DrainStatus.completed }
      else
        { st1 with lastDataTime := o.time, sink := sink, chunkReads := st1.chunkReads + 1,
                   status := ErrorCheck false st1.status }

/-- The loop `while (true)` run against the observations; see
`ScanAndPlot.drainLoop`. -/
def drainLoop : List TimedObs → DrainState → DrainState
  | [], st => st
  | o :: rest, st =>
    if (iteration o st).status = DrainStatus.running then drainLoop rest (iteration o st)
    else iteration o st

/-- `ReadLuaInfo` of scanwitharg.c; `start` is what `time(NULL)` returns on
line 111. -/
def ReadLuaInfo (fopenOk : Bool) (start : Int) (obs : List TimedObs) : DrainState :=
  if fopenOk then
    drainLoop obs { lastDataTime := start, sink := [], polls := 0, chunkReads := 0,
                    writes := [], status := DrainStatus.running }
  else
    { lastDataTime := start, sink := [], polls := 0, chunkReads := 0, writes := [],
      status := DrainStatus.fileError }

/-- The time of the most recent poll in `pre` that reported a non-zero byte
count, or `start` when there is none. -/
def lastNonZeroTime (start : Int) : List TimedObs → Int
  | [] => start
  | o :: rest =>
    match o.obs.numBytes with
    | some (_ + 1) => lastNonZeroTime o.time rest
    | _ => lastNonZeroTime start rest

end ScanWithArg

/-- The data of the successfully read chunks among some observations, in order. -/
def chunksOf : List Obs → List (List Char)
  | [] => []
  | Obs.chunk data :: rest => data :: chunksOf rest
  | _ :: rest => chunksOf rest

/-! ## Grid reconstructor (scanandplot.c) -/

/-- `#define NUM_TOTAL_ROWS 100` -/
def NUM_TOTAL_ROWS : Nat := 100

/-- `#define NUM_VALUES_PER_LINE 50` -/
def NUM_VALUES_PER_LINE : Nat := 50

/-- `#define NUM_CHUNK_LINES 100/50`: the macro text has no brackets, so each use
is the expression `100/50` spliced in place. -/
def NUM_CHUNK_LINES : Nat := 100 / 50

/-- `#define NUM_VALUES_PER_ROW (NUM_CHUNK_LINES * NUM_VALUES_PER_LINE)`, which
expands to `(100/50 * 50)`. -/
def NUM_VALUES_PER_ROW : Nat := 100 / 50 * 50

/-- The buffers that successive calls `fgets(line, size, fp)` return until the
first NULL, for a file holding the bytes given: each call reads up to and
including a newline, or `size - 1` bytes, or to the end of the file, and returns
NULL once nothing is left.  `line` is the part of the current buffer read so
far. -/
def fgetsLines (size : Nat) : List Char → List Char → List (List Char)
  | [], line => if line.isEmpty then [] else [line]
  | c :: s, line =>
    if c = '\n' ∨ line.length + 1 = size - 1 then (line ++ [c]) :: fgetsLines size s []
    else fgetsLines size s (line ++ [c])

/-- The delimiters `" \t\r\n"` of the `strtok` calls. -/
def isDelim (c : Char) : Bool :=
  c = ' ' || c = '\t' || c = '\r' || c = '\n'

/-- The tokens `strtok` cuts out of a string: maximal runs of non-delimiters.
`tok` is the token being read. -/
def tokensFrom : List Char → List Char → List (List Char)
  | [], tok => if tok.isEmpty then [] else [tok]
  | c :: s, tok =>
    if isDelim c then
      (if tok.isEmpty then tokensFrom s [] else tok :: tokensFrom s [])
    else tokensFrom s (tok ++ [c])

/-- Every token `strtok(line, " \t\r\n")`, `strtok(NULL, " \t\r\n")`, ... would
return for the buffer `line`, in order. -/
def strtokAll (line : List Char) : List (List Char) :=
  tokensFrom (cstr line) []

/-- The loop of lines 170-173,
`while (token && count < NUM_VALUES_PER_LINE) { vals[count++] = (float)atof(token); token = strtok(NULL, ...); }`.
`vals` holds `vals[0 .. count)`, so `count` is its length. -/
def scanTokens {F : Type} (atof : List Char → F) : List (List Char) → List F → List F
  | [], vals => vals
  | token :: more, vals =>
    if vals.length < NUM_VALUES_PER_LINE then scanTokens atof more (vals ++ [atof token])
    else vals

/-- `memcpy(&dst[pos], src, n * sizeof(float))`. -/
def memcpyAt {F : Type} (dst : List F) (pos : Nat) (src : List F) (n : Nat) : List F :=
  dst.take pos ++ src.take n ++ dst.drop (pos + n)

/-- How the inner `for` loop over `chunkLine` leaves. -/
inductive ChunkResult (F : Type) where
  /-- `fgets` returned NULL: "Reached EOF or failed read at row %d, chunkLine %d" -/
  | eofError (rowIndex chunkLine : Nat)
  /-- "Found only %d floats instead of 50 on line" -/
  | countError (count : Nat)
  /-- the loop ran to its end with `rowValues`; `rest` is what `fgets` has yet
  to return -/
  | row (rowValues : List F) (rest : List (List Char))

/-- How the parse of lines 144-188 ends. -/
inductive ParseResult (F : Type) where
  /-- `fgets` returned NULL: "Reached EOF or failed read at row %d, chunkLine %d" -/
  | eofError (rowIndex chunkLine : Nat)
  /-- "Found only %d floats instead of 50 on line" -/
  | countError (count : Nat)
  /-- the loop filled `data` -/
  | parsed (data : List (List F))
  deriving DecidableEq

/-- The loop `for (int chunkLine = 0; chunkLine < NUM_CHUNK_LINES; chunkLine++)`
of lines 151-183, entered with the given `chunkLine`.  `lines` is what `fgets`
will return from here on.  On a short line the source does `chunkLine--;
continue;`, and the increment of the `for` then restores `chunkLine`. -/
def chunkLoop {F : Type} (atof : List Char → F) (rowIndex : Nat) :
    List (List Char) → Nat → List F → ChunkResult F
  | lines, chunkLine, rowValues =>
    if chunkLine < NUM_CHUNK_LINES then
      match lines with
      | [] => ChunkResult.eofError rowIndex chunkLine
      | line :: rest =>
        if strlen line < 2 then chunkLoop atof rowIndex rest chunkLine rowValues
        else
          let vals := scanTokens atof (strtokAll line) []
          let count := vals.length
          if count < NUM_VALUES_PER_LINE then ChunkResult.countError count
          else
            chunkLoop atof rowIndex rest (chunkLine + 1)
              (memcpyAt rowValues (chunkLine * NUM_VALUES_PER_LINE) vals NUM_VALUES_PER_LINE)
    else ChunkResult.row rowValues lines

/-- The loop `while (rowIndex < NUM_TOTAL_ROWS)` of lines 146-188, with
`remaining = NUM_TOTAL_ROWS - rowIndex` rows still to assemble.  `data` holds
the rows `data[0 .. rowIndex)`. -/
def rowLoop {F : Type} [Zero F] (atof : List Char → F) :
    Nat → Nat → List (List Char) → List (List F) → ParseResult F
  | 0, _, _, data => ParseResult.parsed data
  | remaining + 1, rowIndex, lines, data =>
    -- `memset(rowValues, 0, sizeof(rowValues));`
    match chunkLoop atof rowIndex lines 0 (List.replicate NUM_VALUES_PER_ROW (0 : F)) with
    | ChunkResult.eofError r c => ParseResult.eofError r c
    | ChunkResult.countError n => ParseResult.countError n
    | ChunkResult.row rowValues rest =>
      rowLoop atof remaining (rowIndex + 1) rest (data ++ [rowValues])

/-- What `ParseAndPlotHeatmap` leaves behind. -/
structure HeatmapOutput (F : Type) where
  /-- how the parse ended -/
  result : ParseResult F
  /-- the rows written to `heatmap.csv`; `none` when the file was not written -/
  csv : Option (List (List F))

/-- `ParseAndPlotHeatmap` of scanandplot.c up to the writing of `heatmap.csv`
(lines 129-209), for an input file that opens and holds `stream`.  `atof` stands
for the conversion `(float)atof(token)` and `csvOk` tells whether
`heatmap.csv` opens.  The values are kept as they are; their `%f` rendering is
not modelled. -/
def ParseAndPlotHeatmap {F : Type} [Zero F] (atof : List Char → F) (stream : List Char)
    (csvOk : Bool) : HeatmapOutput F :=
  match rowLoop atof NUM_TOTAL_ROWS 0 (fgetsLines 1024 stream []) [] with
  | ParseResult.parsed data =>
    { result := ParseResult.parsed data, csv := if csvOk then some data else none }
  | ParseResult.eofError r c => { result := ParseResult.eofError r c, csv := none }
  | ParseResult.countError n => { result := ParseResult.countError n, csv := none }

/-! ### Vocabulary of the claims on the parse -/

/-- A line that is not a spacer: `strlen(line) >= 2`. -/
def nonSpacer (line : List Char) : Bool :=
  decide (2 ≤ strlen line)

/-- The non-spacer lines of a file, in order, as `fgets` delivers them. -/
def logicalLines (stream : List Char) : List (List Char) :=
  (fgetsLines 1024 stream []).filter nonSpacer

/-- Token `c` of the `i`-th line of `L`. -/
def tokenAt (L : List (List Char)) (i c : Nat) : Option (List Char) :=
  (L[i]?).bind (fun line => (strtokAll line)[c]?)

/-- The entry `data[r][c]`. -/
def entry {F : Type} (data : List (List F)) (r c : Nat) : Option F :=
  (data[r]?).bind (fun row => row[c]?)

/-- The values the parser takes from one line: its first `NUM_VALUES_PER_LINE`
tokens, converted. -/
def lineValues {F : Type} (atof : List Char → F) (line : List Char) : List F :=
  ((strtokAll line).take NUM_VALUES_PER_LINE).map atof

/-- The rows assembled from consecutive pairs of lines. -/
def rowsOf {F : Type} (atof : List Char → F) : List (List Char) → List (List F)
  | l0 :: l1 :: rest => (lineValues atof l0 ++ lineValues atof l1) :: rowsOf atof rest
  | _ => []

/-- A physical line that `fgets` delivers whole: it ends with its newline, has
no other newline, and fits the 1024-byte buffer with its terminator. -/
def wholeLine (l : List Char) : Bool :=
  decide (l.getLast? = some '\n') && decide ('\n' ∉ l.dropLast) && decide (l.length ≤ 1023)

/-! ## A model of `atof` -/

/-- The value of a run of decimal digits. -/
def digitsValue (ds : List Char) : Nat :=
  ds.foldl (fun n c => 10 * n + (c.toNat - 48)) 0

/-- An optional sign: whether it is a minus, and what follows it. -/
def dropSign : List Char → Bool × List Char
  | '-' :: r => (true, r)
  | '+' :: r => (false, r)
  | s => (false, s)

/-- What follows the integer digits and the optional fraction of a mantissa. -/
def afterMantissa (s : List Char) : List Char :=
  match s.dropWhile Char.isDigit with
  | '.' :: r => r.dropWhile Char.isDigit
  | r => r

/-- The fraction digits of a mantissa. -/
def fractionDigits (s : List Char) : List Char :=
  match s.dropWhile Char.isDigit with
  | '.' :: r => r.takeWhile Char.isDigit
  | _ => []

/-- The decimal exponent written at the start of `s`, 0 when there is none. -/
def exponentOf (s : List Char) : Int :=
  match s with
  | 'e' :: r | 'E' :: r =>
    let ed := (dropSign r).2.takeWhile Char.isDigit
    if ed.isEmpty then 0
    else if (dropSign r).1 then -(digitsValue ed : Int) else (digitsValue ed : Int)
  | _ => 0

/-- The C library's `atof` on decimal input, in exact arithmetic: the value of
the longest prefix of the form sign, digits, optional fraction, optional
exponent, and 0 when the string starts with no such number (as for "abc").
Hexadecimal, infinity and NaN forms and the rounding to `float` are left
out. -/
def atofModel (token : List Char) : ℚ :=
  let s := (dropSign (token.dropWhile Char.isWhitespace)).2
  let ip := s.takeWhile Char.isDigit
  let fp := fractionDigits s
  if ip.isEmpty && fp.isEmpty then 0
  else
    let v : ℚ := (digitsValue (ip ++ fp) : ℚ) / (10 : ℚ) ^ fp.length
      * (10 : ℚ) ^ exponentOf (afterMantissa s)
    if (dropSign (token.dropWhile Char.isWhitespace)).1 then -v else v

/-- Whether a whole token is a decimal floating-point literal: sign, digits with
an optional fraction (at least one digit in all), optional exponent, and
nothing after it. -/
def isFloatLiteral (token : List Char) : Bool :=
  let s := (dropSign token).2
  let mantissaOk := !((s.takeWhile Char.isDigit).isEmpty && (fractionDigits s).isEmpty)
  let tailOk :=
    match afterMantissa s with
    | [] => true
    | 'e' :: r | 'E' :: r =>
      !((dropSign r).2.isEmpty) && (dropSign r).2.all Char.isDigit
    | _ => false
  mantissaOk && tailOk

/-! ## Sample inputs -/

/-- A chunk that carries the sentinel in the middle of other text. -/
def sentinelChunk : List Char := 'o' :: 'k' :: '\n' :: (searchString ++ ['\n'])

/-- A chunk in which a NUL byte precedes the sentinel. -/
def nulChunk : List Char := NUL :: searchString

/-- A line of `n` copies of the token `tok`, each followed by a blank, and a
newline. -/
def tokenLine (tok : List Char) (n : Nat) : List Char :=
  (List.replicate n (tok ++ [' '])).flatten ++ ['\n']

/-- 200 lines of 51 tokens "7". -/
def wideStream : List Char :=
  (List.replicate 200 (tokenLine ['7'] 51)).flatten

/-- 200 lines of 50 tokens "abc". -/
def abcStream : List Char :=
  (List.replicate 200 (tokenLine ['a', 'b', 'c'] 50)).flatten

/-- The one line "1 2". -/
def shortStream : List Char := ['1', ' ', '2', '\n']

/-- 199 lines of 50 tokens "7": one line short of 100 rows. -/
def truncatedStream : List Char :=
  (List.replicate 199 (tokenLine ['7'] 50)).flatten

/-- Three lines of 50 tokens "7", then a line of two tokens. -/
def brokenStream : List Char :=
  (List.replicate 3 (tokenLine ['7'] 50)).flatten ++ shortStream

/-! # Theorems -/

/-! ### Lemmas on the sweep -/

theorem forLoop_succ {σ : Type} (n : Nat) (body : Nat → σ → σ) (s : σ) :
    forLoop (n + 1) body s = body n (forLoop n body s) := rfl

theorem square_setCell {n : Nat} {m : List (List ℚ)} (h : Square n m) (i j : Nat) (v : ℚ) :
    Square n (setCell m i j v) := by
  obtain ⟨hl, hr⟩ := h
  refine ⟨by simp [setCell, hl], ?_⟩
  intro row hrow
  unfold setCell at hrow
  rcases List.mem_or_eq_of_mem_set hrow with h1 | h1
  · exact hr row h1
  · subst h1
    rw [List.length_set]
    by_cases hi : i < m.length
    · rw [List.getD_eq_getElem _ _ hi]
      exact hr _ (List.getElem_mem _)
    · rw [List.set_eq_of_length_le (Nat.le_of_not_lt hi)] at hrow
      exact (by simpa using hr _ hrow)

theorem cell_setCell_same {n : Nat} {m : List (List ℚ)} (h : Square n m) {i j : Nat}
    (hi : i < n) (hj : j < n) (v : ℚ) : cell (setCell m i j v) i j = some v := by
  obtain ⟨hl, hr⟩ := h
  have hi2 : i < m.length := by omega
  have hrow : (m[i]).length = n := hr _ (List.getElem_mem _)
  have hj2 : j < (m[i]).length := by omega
  simp [cell, setCell, hi2, List.getD_eq_getElem, List.getElem?_set, hj2]

theorem cell_setCell_other (m : List (List ℚ)) {i j a b : Nat} (v : ℚ)
    (h : a ≠ i ∨ b ≠ j) : cell (setCell m i j v) a b = cell m a b := by
  unfold cell setCell
  by_cases ha : a = i
  · subst ha
    have hb : b ≠ j := by
      rcases h with h | h
      · exact absurd rfl h
      · exact h
    by_cases hi : a < m.length
    · simp [hi, List.getElem?_set, List.getD_eq_getElem, Ne.symm hb]
    · have hi2 : m.length ≤ a := Nat.le_of_not_lt hi
      simp [List.set_eq_of_length_le hi2]
  · simp [List.getElem?_set, Ne.symm ha]

theorem readsOf_append (a : Nat) (t u : List Event) :
    readsOf a (t ++ u) = readsOf a t + readsOf a u := by
  induction t with
  | nil => simp [readsOf]
  | cons e t ih =>
    cases e <;> simp [readsOf, ih]
    omega

theorem cellLoop_spec (x_start x_step dwell_ms : ℚ) (counter : Nat → ℚ) (cy : ℚ)
    (n i : Nat) (hi : i < n) (s : SweepState) (hs : Square n s.matrix) (j : Nat) (hj : j ≤ n) :
    Square n (forLoop j (cellBody x_start x_step dwell_ms counter cy i) s).matrix ∧
    (forLoop j (cellBody x_start x_step dwell_ms counter cy i) s).nreads = s.nreads + 2 * j ∧
    readsOf 3136 (forLoop j (cellBody x_start x_step dwell_ms counter cy i) s).trace
      = readsOf 3136 s.trace + 2 * j ∧
    (∀ c, c < j → cell (forLoop j (cellBody x_start x_step dwell_ms counter cy i) s).matrix i c
      = some (counter (s.nreads + 2 * c + 1))) ∧
    (∀ a b, a ≠ i → cell (forLoop j (cellBody x_start x_step dwell_ms counter cy i) s).matrix a b
      = cell s.matrix a b) := by
  induction j with
  | zero =>
    refine ⟨hs, by simp [forLoop], by simp [forLoop], ?_, ?_⟩
    · intro c hc
      omega
    · intro a b _
      rfl
  | succ j ih =>
    obtain ⟨h1, h2, h3, h4, h5⟩ := ih (by omega)
    rw [forLoop_succ]
    generalize forLoop j (cellBody x_start x_step dwell_ms counter cy i) s = r at h1 h2 h3 h4 h5
    refine ⟨square_setCell h1 _ _ _, ?_, ?_, ?_, ?_⟩
    · simp [cellBody, h2]
      omega
    · simp [cellBody, readsOf_append, readsOf, h3]
      omega
    · intro c hc
      by_cases hcj : c = j
      · subst hcj
        simp only [cellBody]
        rw [cell_setCell_same h1 hi (by omega), h2]
      · simp only [cellBody]
        rw [cell_setCell_other _ _ (Or.inr hcj)]
        exact h4 c (by omega)
    · intro a b ha
      simp only [cellBody]
      rw [cell_setCell_other _ _ (Or.inl ha)]
      exact h5 a b ha

theorem rowLoop_spec (x_start y_start x_step y_step dwell_ms : ℚ) (counter : Nat → ℚ)
    (n : Nat) (s : SweepState) (hs : Square n s.matrix) (hn : s.nreads = 0)
    (ht : readsOf 3136 s.trace = 0) (i : Nat) (hi : i ≤ n) :
    Square n (forLoop i (rowBody x_start y_start x_step y_step dwell_ms counter n) s).matrix ∧
    (forLoop i (rowBody x_start y_start x_step y_step dwell_ms counter n) s).nreads
      = 2 * (i * n) ∧
    readsOf 3136 (forLoop i (rowBody x_start y_start x_step y_step dwell_ms counter n) s).trace
      = 2 * (i * n) ∧
    (∀ a c, a < i → c < n →
      cell (forLoop i (rowBody x_start y_start x_step y_step dwell_ms counter n) s).matrix a c
        = some (counter (2 * (a * n + c) + 1))) := by
  induction i with
  | zero =>
    refine ⟨hs, by simp [forLoop, hn], by simp [forLoop, ht], ?_⟩
    intro a c ha
    omega
  | succ i ih =>
    obtain ⟨h1, h2, h3, h4⟩ := ih (by omega)
    rw [forLoop_succ]
    generalize forLoop i (rowBody x_start y_start x_step y_step dwell_ms counter n) s = r
      at h1 h2 h3 h4
    unfold rowBody
    have key := cellLoop_spec x_start x_step dwell_ms counter
      (clampVolt (y_start + (i : ℚ) * y_step)) n i (by omega)
      { r with trace := r.trace ++ [Event.write 30008 (clampVolt (y_start + (i : ℚ) * y_step))] }
      h1 n (le_refl n)
    obtain ⟨k1, k2, k3, k4, k5⟩ := key
    refine ⟨k1, ?_, ?_, ?_⟩
    · rw [k2]
      simp only [h2]
      ring
    · rw [k3]
      simp only [readsOf_append, readsOf, h3]
      ring
    · intro a c ha hc
      by_cases hai : a = i
      · subst hai
        rw [k4 c hc]
        simp only [h2]
        congr 2
        ring
      · rw [k5 a c hai]
        exact h4 a c (by omega) hc

theorem square_ext {n : Nat} {m m2 : List (List ℚ)} (h : Square n m) (h2 : Square n m2)
    (hc : ∀ a c, a < n → c < n → cell m a c = cell m2 a c) : m = m2 := by
  obtain ⟨hl, hr⟩ := h
  obtain ⟨hl2, hr2⟩ := h2
  apply List.ext_getElem (by omega)
  intro a ha ha2
  have e1 : (m[a]).length = n := hr _ (List.getElem_mem _)
  have e2 : (m2[a]).length = n := hr2 _ (List.getElem_mem _)
  apply List.ext_getElem (by omega)
  intro c hc1 hc2
  have := hc a c (by omega) (by omega)
  simpa [cell, ha, ha2, hc1, hc2] using this

theorem square_replicate (n : Nat) : Square n (List.replicate n (List.replicate n (0 : ℚ))) := by
  refine ⟨by simp, ?_⟩
  intro row hrow
  rw [List.eq_of_mem_replicate hrow]
  simp

theorem sweep_spec (x_start y_start x_end y_end : ℚ) (steps : Int) (dwell_ms : ℚ)
    (counter : Nat → ℚ) :
    Square steps.toNat (sweep x_start y_start x_end y_end steps dwell_ms counter).matrix ∧
    readsOf 3136 (sweep x_start y_start x_end y_end steps dwell_ms counter).trace
      = 2 * (steps.toNat * steps.toNat) ∧
    (∀ a c, a < steps.toNat → c < steps.toNat →
      cell (sweep x_start y_start x_end y_end steps dwell_ms counter).matrix a c
        = some (counter (2 * (a * steps.toNat + c) + 1))) := by
  have key := rowLoop_spec x_start y_start
    ((x_end - x_start) / ((steps - 1 : Int) : ℚ)) ((y_end - y_start) / ((steps - 1 : Int) : ℚ))
    dwell_ms counter steps.toNat
    { trace := [], nreads := 0,
      matrix := List.replicate steps.toNat (List.replicate steps.toNat (0 : ℚ)) }
    (square_replicate _) rfl rfl steps.toNat (le_refl _)
  obtain ⟨k1, _, k3, k4⟩ := key
  exact ⟨k1, k3, k4⟩

theorem sweep_matrix_congr (x_start y_start x_end y_end : ℚ) (steps : Int) (dwell_ms : ℚ)
    (counter counter2 : Nat → ℚ) (h : ∀ k, counter2 (2 * k + 1) = counter (2 * k + 1)) :
    (sweep x_start y_start x_end y_end steps dwell_ms counter2).matrix
      = (sweep x_start y_start x_end y_end steps dwell_ms counter).matrix := by
  obtain ⟨a1, _, a3⟩ := sweep_spec x_start y_start x_end y_end steps dwell_ms counter
  obtain ⟨b1, _, b3⟩ := sweep_spec x_start y_start x_end y_end steps dwell_ms counter2
  apply square_ext b1 a1
  intro a c ha hc
  rw [a3 a c ha hc, b3 a c ha hc, h]

theorem readsOf_resets (t : List Event) :
    readsOf 3136 (t ++ [Event.write 30008 0, Event.write 30010 0]) = readsOf 3136 t := by
  simp [readsOf_append, readsOf]

/-! ### The order of the events of the sweep -/

theorem cellLoop_trace (x_start x_step dwell_ms : ℚ) (counter : Nat → ℚ) (cy : ℚ)
    (i : Nat) (s : SweepState) (j : Nat) :
    (forLoop j (cellBody x_start x_step dwell_ms counter cy i) s).trace
      = s.trace ++ (List.replicate j (cellEvents cy dwell_ms)).flatten := by
  induction j with
  | zero => simp [forLoop]
  | succ j ih =>
    rw [forLoop_succ]
    simp only [cellBody, ih]
    rw [List.replicate_succ', List.flatten_append]
    simp [cellEvents, List.append_assoc]

theorem rowLoop_trace (x_start y_start x_step y_step dwell_ms : ℚ) (counter : Nat → ℚ)
    (n : Nat) (s : SweepState) (i : Nat) :
    (forLoop i (rowBody x_start y_start x_step y_step dwell_ms counter n) s).trace
      = s.trace ++ sweepEvents y_start y_step dwell_ms n i := by
  induction i with
  | zero => simp [forLoop, sweepEvents]
  | succ i ih =>
    rw [forLoop_succ]
    generalize forLoop i (rowBody x_start y_start x_step y_step dwell_ms counter n) s = r at ih
    unfold rowBody
    rw [cellLoop_trace]
    simp only [ih, sweepEvents, rowEvents, List.append_assoc, List.singleton_append]

theorem sweep_trace (x_start y_start x_end y_end : ℚ) (steps : Int) (dwell_ms : ℚ)
    (counter : Nat → ℚ) :
    (sweep x_start y_start x_end y_end steps dwell_ms counter).trace
      = sweepEvents y_start ((y_end - y_start) / ((steps - 1 : Int) : ℚ)) dwell_ms
          steps.toNat steps.toNat := by
  unfold sweep
  rw [rowLoop_trace]
  rfl

theorem readsOf_cells (cy dwell_ms : ℚ) (c : Nat) :
    readsOf 3136 (List.replicate c (cellEvents cy dwell_ms)).flatten = 2 * c := by
  induction c with
  | zero => simp [readsOf]
  | succ c ih =>
    rw [List.replicate_succ, List.flatten_cons, readsOf_append, ih]
    simp only [cellEvents, readsOf, if_true]
    omega

theorem readsOf_sweepEvents (y_start y_step dwell_ms : ℚ) (n i : Nat) :
    readsOf 3136 (sweepEvents y_start y_step dwell_ms n i) = 2 * (i * n) := by
  induction i with
  | zero => simp [sweepEvents, readsOf]
  | succ i ih =>
    simp only [sweepEvents, rowEvents, readsOf_append, readsOf, readsOf_cells, ih]
    ring

/-- In the events of the first `i` rows, cell `(a, c)` is the run of four events
write, read, dwell, read that comes after exactly `2 * (a * n + c)` counter
reads. -/
theorem sweepEvents_cell (y_start y_step dwell_ms : ℚ) (n i a c : Nat) (ha : a < i)
    (hc : c < n) :
    ∃ pre post : List Event,
      sweepEvents y_start y_step dwell_ms n i
        = pre ++ cellEvents (clampVolt (y_start + (a : ℚ) * y_step)) dwell_ms ++ post ∧
      readsOf 3136 pre = 2 * (a * n + c) := by
  induction i with
  | zero => omega
  | succ i ih =>
    by_cases hai : a = i
    · subst hai
      have hsplit : List.replicate n (cellEvents (clampVolt (y_start + (a : ℚ) * y_step)) dwell_ms)
          = List.replicate c (cellEvents (clampVolt (y_start + (a : ℚ) * y_step)) dwell_ms)
            ++ cellEvents (clampVolt (y_start + (a : ℚ) * y_step)) dwell_ms
              :: List.replicate (n - c - 1)
                  (cellEvents (clampVolt (y_start + (a : ℚ) * y_step)) dwell_ms) := by
        have e : n = c + ((n - c - 1) + 1) := by omega
        conv_lhs => rw [e, List.replicate_add, List.replicate_succ]
      refine ⟨sweepEvents y_start y_step dwell_ms n a
          ++ Event.write 30008 (clampVolt (y_start + (a : ℚ) * y_step))
            :: (List.replicate c
                (cellEvents (clampVolt (y_start + (a : ℚ) * y_step)) dwell_ms)).flatten,
        (List.replicate (n - c - 1)
          (cellEvents (clampVolt (y_start + (a : ℚ) * y_step)) dwell_ms)).flatten, ?_, ?_⟩
      · simp only [sweepEvents, rowEvents]
        rw [hsplit]
        simp [List.append_assoc]
      · simp only [readsOf_append, readsOf_sweepEvents, readsOf, readsOf_cells]
        ring
    · obtain ⟨pre, post, e, hr⟩ := ih (by omega)
      refine ⟨pre, post ++ rowEvents n (clampVolt (y_start + (i : ℚ) * y_step)) dwell_ms, ?_, hr⟩
      simp only [sweepEvents, e, List.append_assoc]

/-! ### C10 -/

/-- C10. For every plan with `steps >= 2` the matrix `scan_voltages` builds has
exactly `steps` rows of `steps` entries, the run issues `2 * steps * steps` reads
of the counter address 3136 (two per cell), and `matrix[i][j]` is the value of
the second read of cell `(i, j)`: read number `2 * (i * steps + j) + 2` of the
sweep, which is `counter (2 * (i * steps + j) + 1)` counting from 0.  The first
read of a cell never reaches the matrix: changing what the device answers to the
pre-dwell reads leaves the matrix unchanged.

The order of the events is fixed as well.  The whole trace is, row by row, the
write to the Y-axis DAC and then for each cell the four events write to 30010,
read of 3136, dwell of `dwell_ms`, read of 3136, followed by the two resets when
the output file opens.  For each cell `(i, j)` these four events stand in the
trace right after the first `2 * (i * steps + j)` counter reads, and
`matrix[i][j]` is what the device answers to the read that follows the dwell;
the device answers a read that comes after the events `t` with
`counter (readsOf 3136 t)`. -/
theorem scan_voltages_matrix_second_read (x_start y_start x_end y_end : ℚ) (steps : Int)
    (dwell_ms : ℚ) (counter : Nat → ℚ) (fopenOk : Bool) (h : 2 ≤ steps) :
    ∃ m : List (List ℚ),
      (scan_voltages x_start y_start x_end y_end steps dwell_ms counter fopenOk).matrix = some m ∧
      (m.length : Int) = steps ∧
      (∀ row ∈ m, (row.length : Int) = steps) ∧
      (readsOf 3136
          (scan_voltages x_start y_start x_end y_end steps dwell_ms counter fopenOk).trace : Int)
        = 2 * steps * steps ∧
      (∀ i j : Nat, (i : Int) < steps → (j : Int) < steps →
        cell m i j = some (counter (2 * (i * steps.toNat + j) + 1))) ∧
      (∀ counter2 : Nat → ℚ, (∀ k, counter2 (2 * k + 1) = counter (2 * k + 1)) →
        (scan_voltages x_start y_start x_end y_end steps dwell_ms counter2 fopenOk).matrix
          = some m) ∧
      (scan_voltages x_start y_start x_end y_end steps dwell_ms counter fopenOk).trace
        = sweepEvents y_start ((y_end - y_start) / ((steps - 1 : Int) : ℚ)) dwell_ms
            steps.toNat steps.toNat
          ++ (if fopenOk then [Event.write 30008 0, Event.write 30010 0] else []) ∧
      (∀ i j : Nat, (i : Int) < steps → (j : Int) < steps →
        ∃ pre post : List Event,
          (scan_voltages x_start y_start x_end y_end steps dwell_ms counter fopenOk).trace
            = pre ++
              [Event.write 30010
                  (clampVolt (y_start + (i : ℚ) * ((y_end - y_start) / ((steps - 1 : Int) : ℚ)))),
                Event.read 3136, Event.sleep dwell_ms, Event.read 3136] ++ post ∧
          readsOf 3136 pre = 2 * (i * steps.toNat + j) ∧
          cell m i j = some (counter (readsOf 3136
            (pre ++
              [Event.write 30010
                  (clampVolt (y_start + (i : ℚ) * ((y_end - y_start) / ((steps - 1 : Int) : ℚ)))),
                Event.read 3136, Event.sleep dwell_ms])))) := by
  obtain ⟨⟨a1, a2⟩, a3, a4⟩ := sweep_spec x_start y_start x_end y_end steps dwell_ms counter
  have hn : (steps.toNat : Int) = steps := Int.toNat_of_nonneg (by omega)
  have hlt : ¬ steps < 2 := by omega
  have htrace : (scan_voltages x_start y_start x_end y_end steps dwell_ms counter fopenOk).trace
      = sweepEvents y_start ((y_end - y_start) / ((steps - 1 : Int) : ℚ)) dwell_ms
          steps.toNat steps.toNat
        ++ (if fopenOk then [Event.write 30008 0, Event.write 30010 0] else []) := by
    cases fopenOk <;> simp [scan_voltages, hlt, sweep_trace]
  refine ⟨(sweep x_start y_start x_end y_end steps dwell_ms counter).matrix,
    ?_, ?_, ?_, ?_, ?_, ?_, htrace, ?_⟩
  · cases fopenOk <;> simp [scan_voltages, hlt]
  · rw [a1, hn]
  · intro row hrow
    rw [a2 row hrow, hn]
  · have : readsOf 3136
        (scan_voltages x_start y_start x_end y_end steps dwell_ms counter fopenOk).trace
        = 2 * (steps.toNat * steps.toNat) := by
      cases fopenOk
      · simpa [scan_voltages, hlt] using a3
      · simp only [scan_voltages, hlt, if_false, Bool.true_eq_false, readsOf_resets]
        exact a3
    rw [this]
    push_cast
    rw [hn]
    ring
  · intro i j hi hj
    exact a4 i j (by omega) (by omega)
  · intro counter2 hc
    have := sweep_matrix_congr x_start y_start x_end y_end steps dwell_ms counter counter2 hc
    cases fopenOk <;> simp [scan_voltages, hlt, this]
  · intro i j hi hj
    obtain ⟨pre, post, e, hr⟩ := sweepEvents_cell y_start
      ((y_end - y_start) / ((steps - 1 : Int) : ℚ)) dwell_ms steps.toNat steps.toNat i j
      (by omega) (by omega)
    refine ⟨pre, post ++ (if fopenOk then [Event.write 30008 0, Event.write 30010 0] else []),
      ?_, hr, ?_⟩
    · rw [htrace, e]
      simp only [cellEvents, List.append_assoc]
    · rw [a4 i j (by omega) (by omega)]
      simp only [readsOf_append, readsOf, hr, if_true]

/-- C10 at a concrete plan: two steps, the counter answering `k` to read `k`. -/
theorem scan_voltages_matrix_second_read_witness :
    (2 : Int) ≤ 2 ∧
    ∃ m : List (List ℚ),
      (scan_voltages 1 2 3 4 2 1 (fun k => (k : ℚ)) true).matrix = some m ∧
      (m.length : Int) = 2 ∧
      (∀ row ∈ m, (row.length : Int) = 2) ∧
      (readsOf 3136 (scan_voltages 1 2 3 4 2 1 (fun k => (k : ℚ)) true).trace : Int)
        = 2 * 2 * 2 ∧
      (∀ i j : Nat, (i : Int) < 2 → (j : Int) < 2 →
        cell m i j = some ((fun k : Nat => (k : ℚ)) (2 * (i * (2 : Int).toNat + j) + 1))) ∧
      (∀ counter2 : Nat → ℚ,
        (∀ k, counter2 (2 * k + 1) = (fun k : Nat => (k : ℚ)) (2 * k + 1)) →
        (scan_voltages 1 2 3 4 2 1 counter2 true).matrix = some m) ∧
      (scan_voltages 1 2 3 4 2 1 (fun k => (k : ℚ)) true).trace
        = sweepEvents 2 ((4 - 2) / ((2 - 1 : Int) : ℚ)) 1 (2 : Int).toNat (2 : Int).toNat
          ++ (if true = true then [Event.write 30008 0, Event.write 30010 0] else []) ∧
      (∀ i j : Nat, (i : Int) < 2 → (j : Int) < 2 →
        ∃ pre post : List Event,
          (scan_voltages 1 2 3 4 2 1 (fun k => (k : ℚ)) true).trace
            = pre ++
              [Event.write 30010 (clampVolt (2 + (i : ℚ) * ((4 - 2) / ((2 - 1 : Int) : ℚ)))),
                Event.read 3136, Event.sleep 1, Event.read 3136] ++ post ∧
          readsOf 3136 pre = 2 * (i * (2 : Int).toNat + j) ∧
          cell m i j = some ((fun k : Nat => (k : ℚ)) (readsOf 3136
            (pre ++
              [Event.write 30010 (clampVolt (2 + (i : ℚ) * ((4 - 2) / ((2 - 1 : Int) : ℚ)))),
                Event.read 3136, Event.sleep 1])))) :=
  ⟨by decide, scan_voltages_matrix_second_read 1 2 3 4 2 1 (fun k => (k : ℚ)) true (by decide)⟩

/-- The events of the plan 1, 2, 3, 4 with two steps and a dwell of 1 ms, in
order: per row the Y write, per cell write, read, dwell, read, and at the end
the two resets. -/
theorem scan_voltages_trace_example :
    (scan_voltages 1 2 3 4 2 1 (fun k => (k : ℚ)) true).trace
      = [Event.write 30008 2,
         Event.write 30010 2, Event.read 3136, Event.sleep 1, Event.read 3136,
         Event.write 30010 2, Event.read 3136, Event.sleep 1, Event.read 3136,
         Event.write 30008 4,
         Event.write 30010 4, Event.read 3136, Event.sleep 1, Event.read 3136,
         Event.write 30010 4, Event.read 3136, Event.sleep 1, Event.read 3136,
         Event.write 30008 0, Event.write 30010 0] ∧
    (scan_voltages 1 2 3 4 2 1 (fun k => (k : ℚ)) true).matrix = some [[1, 3], [5, 7]] := by
  constructor
  · simp [scan_voltages, sweep, forLoop, rowBody, cellBody, clampVolt, MAX_VOLT, MIN_VOLT]
    norm_num
  · simp [scan_voltages, sweep, forLoop, rowBody, cellBody, setCell]

/-! ### C1 -/

/-- C1 (the code departs from the claim).  With `x_start = 1`, `y_start = 2`,
`x_end = 3`, `y_end = 4` and two steps, the values the claim gives for the X-axis
DAC at cells (0,0), (0,1), (1,0), (1,1) are 1, 3, 1, 3; the values the code
writes to address 30010 are 2, 2, 4, 4 (the clamped Y value of the row, then
the final reset to 0), because line 72 passes `current_y`. -/
theorem scan_voltages_x_dac_receives_y :
    writesTo 30010 (scan_voltages 1 2 3 4 2 1 (fun _ => 0) true).trace = [2, 2, 4, 4, 0] ∧
    writesTo 30008 (scan_voltages 1 2 3 4 2 1 (fun _ => 0) true).trace = [2, 4, 0] ∧
    [clampVolt (1 + (0 : ℚ) * ((3 - 1) / ((2 - 1 : Int) : ℚ))),
     clampVolt (1 + (1 : ℚ) * ((3 - 1) / ((2 - 1 : Int) : ℚ)))] = [1, 3] := by
  refine ⟨?_, ?_, ?_⟩
  · simp [scan_voltages, sweep, forLoop, rowBody, cellBody, writesTo, writesOf, clampVolt,
      MAX_VOLT, MIN_VOLT]
    norm_num
  · simp [scan_voltages, sweep, forLoop, rowBody, cellBody, writesTo, writesOf, clampVolt,
      MAX_VOLT, MIN_VOLT]
    norm_num
  · simp [clampVolt, MAX_VOLT, MIN_VOLT]
    norm_num

/-! ### C5 -/

/-- C5 (the code departs from the claim).  When `fopen("scan_matrix.txt", "w")`
fails, `scan_voltages` returns at line 93 and the two resets of lines 113-114
are never issued: for the plan 1, 2, 3, 4 with two steps the register writes end
with the last cell's write of 4 V to address 30010, and no 0 V is written to
either DAC.  When the file opens, the same plan does end with the two resets. -/
theorem scan_voltages_no_reset_when_fopen_fails :
    writesOf (scan_voltages 1 2 3 4 2 1 (fun _ => 0) false).trace
      = [(30008, 2), (30010, 2), (30010, 2), (30008, 4), (30010, 4), (30010, 4)] ∧
    writesOf (scan_voltages 1 2 3 4 2 1 (fun _ => 0) true).trace
      = [(30008, 2), (30010, 2), (30010, 2), (30008, 4), (30010, 4), (30010, 4),
         (30008, 0), (30010, 0)] := by
  constructor
  · simp [scan_voltages, sweep, forLoop, rowBody, cellBody, writesOf, clampVolt,
      MAX_VOLT, MIN_VOLT]
    norm_num
  · simp [scan_voltages, sweep, forLoop, rowBody, cellBody, writesOf, clampVolt,
      MAX_VOLT, MIN_VOLT]
    norm_num

/-! ### Lemmas on C strings and on the byte loop -/

theorem occursIn_iff (needle hay : List Char) :
    occursIn needle hay = true ↔ needle <:+: hay := by
  induction hay with
  | nil =>
    cases needle <;> simp [occursIn]
  | cons c hay ih =>
    simp only [occursIn, Bool.or_eq_true, ih, List.isPrefixOf_iff_prefix]
    rw [List.infix_cons_iff]

theorem cstr_append_nul (data tail : List Char) :
    cstr (data ++ NUL :: tail) = cstr data := by
  induction data with
  | nil => simp [cstr]
  | cons c data ih =>
    unfold cstr at ih ⊢
    by_cases h : c = NUL
    · simp [h]
    · simp [List.takeWhile_cons, h, ih]

theorem cstr_prefix_append (data tail : List Char) :
    cstr data <+: cstr (data ++ tail) := by
  induction data with
  | nil => simp [cstr]
  | cons c data ih =>
    unfold cstr at ih ⊢
    by_cases h : c = NUL
    · simp [h]
    · simpa [List.takeWhile_cons, h] using ih

theorem fputcLoop_take (data tail fp : List Char) (k : Nat) (hk : k ≤ data.length) :
    fputcLoop (data ++ tail) k fp = fp ++ data.take k := by
  induction k with
  | zero => simp [fputcLoop, forLoop]
  | succ k ih =>
    have h := ih (by omega)
    unfold fputcLoop at h ⊢
    rw [forLoop_succ, h]
    have hk2 : k < data.length := by omega
    have hk3 : k < (data ++ tail).length := by
      rw [List.length_append]
      omega
    rw [List.getD_eq_getElem _ _ hk3, List.getElem_append_left hk2, List.append_assoc,
      List.take_succ, List.getElem?_eq_getElem hk2]
    rfl

theorem fputcLoop_all (data tail fp : List Char) :
    fputcLoop (data ++ tail) data.length fp = fp ++ data := by
  rw [fputcLoop_take data tail fp data.length (le_refl _), List.take_length]

/-! ### Lemmas on the drain of scanandplot.c -/

theorem sap_iteration_polls (o : Obs) (st : ScanAndPlot.DrainState) :
    (ScanAndPlot.iteration o st).polls = st.polls + 1 := by
  cases o with
  | pollError => simp [ScanAndPlot.iteration]
  | readError n =>
    by_cases h : n = 0 <;> simp [ScanAndPlot.iteration, h]
  | chunk data =>
    by_cases h : data.length = 0
    · simp [ScanAndPlot.iteration, h]
    · by_cases h2 : strstr (data ++ [NUL]) searchString = true <;>
        simp [ScanAndPlot.iteration, h, h2]

theorem sap_iteration_sink (o : Obs) (st : ScanAndPlot.DrainState) :
    (ScanAndPlot.iteration o st).sink = st.sink ++ (chunksOf [o]).flatten := by
  cases o with
  | pollError => simp [ScanAndPlot.iteration, chunksOf]
  | readError n =>
    by_cases h : n = 0 <;> simp [ScanAndPlot.iteration, h, chunksOf]
  | chunk data =>
    by_cases h : data.length = 0
    · have hd : data = [] := List.length_eq_zero.mp h
      simp [ScanAndPlot.iteration, hd, chunksOf]
    · by_cases h2 : strstr (data ++ [NUL]) searchString = true <;>
        simp [ScanAndPlot.iteration, h, h2, chunksOf, fputcLoop_all]

theorem sap_drainLoop_append (pre rest : List Obs) (st : ScanAndPlot.DrainState)
    (h : (ScanAndPlot.drainLoop pre st).status = DrainStatus.running) :
    ScanAndPlot.drainLoop (pre ++ rest) st
      = ScanAndPlot.drainLoop rest (ScanAndPlot.drainLoop pre st) := by
  induction pre generalizing st with
  | nil => rfl
  | cons o pre ih =>
    by_cases hr : (ScanAndPlot.iteration o st).status = DrainStatus.running
    · simp only [List.cons_append, ScanAndPlot.drainLoop, hr, if_true] at h ⊢
      exact ih _ h
    · simp only [ScanAndPlot.drainLoop, hr, if_false] at h

theorem sap_drainLoop_polls_ge (obs : List Obs) (st : ScanAndPlot.DrainState) :
    st.polls ≤ (ScanAndPlot.drainLoop obs st).polls := by
  induction obs generalizing st with
  | nil => exact le_refl _
  | cons o obs ih =>
    simp only [ScanAndPlot.drainLoop]
    by_cases hr : (ScanAndPlot.iteration o st).status = DrainStatus.running
    · rw [if_pos hr]
      have := ih (ScanAndPlot.iteration o st)
      rw [sap_iteration_polls] at this
      omega
    · rw [if_neg hr, sap_iteration_polls]
      omega

theorem chunksOf_cons (o : Obs) (rest : List Obs) :
    chunksOf (o :: rest) = chunksOf [o] ++ chunksOf rest := by
  cases o <;> simp [chunksOf]

theorem sap_drainLoop_sink (obs : List Obs) (st : ScanAndPlot.DrainState) :
    (ScanAndPlot.drainLoop obs st).sink
      = st.sink ++ (chunksOf (obs.take ((ScanAndPlot.drainLoop obs st).polls - st.polls))).flatten := by
  induction obs generalizing st with
  | nil => simp [ScanAndPlot.drainLoop, chunksOf]
  | cons o obs ih =>
    simp only [ScanAndPlot.drainLoop]
    by_cases hr : (ScanAndPlot.iteration o st).status = DrainStatus.running
    · rw [if_pos hr, ih]
      have hge := sap_drainLoop_polls_ge obs (ScanAndPlot.iteration o st)
      rw [sap_iteration_polls] at hge ⊢
      have e : (ScanAndPlot.drainLoop obs (ScanAndPlot.iteration o st)).polls - st.polls
          = ((ScanAndPlot.drainLoop obs (ScanAndPlot.iteration o st)).polls - (st.polls + 1)) + 1 := by
        omega
      rw [e, List.take_succ_cons, chunksOf_cons o, sap_iteration_sink]
      simp [List.append_assoc]
    · rw [if_neg hr, sap_iteration_polls, sap_iteration_sink]
      have e : st.polls + 1 - st.polls = 1 := by omega
      rw [e]
      simp

theorem strstr_of_infix_cstr (data tail : List Char) (h : searchString <:+: cstr data) :
    strstr (data ++ tail) searchString = true := by
  unfold strstr
  rw [occursIn_iff]
  exact List.IsInfix.trans h (cstr_prefix_append data tail).isInfix

theorem sap_iteration_sentinel (data : List Char) (st : ScanAndPlot.DrainState)
    (hcount : 1 ≤ data.length) (hs : searchString <:+: cstr data) :
    (ScanAndPlot.iteration (Obs.chunk data) st).status = DrainStatus.completed ∧
    (ScanAndPlot.iteration (Obs.chunk data) st).polls = st.polls + 1 ∧
    (ScanAndPlot.iteration (Obs.chunk data) st).chunkReads = st.chunkReads + 1 := by
  have h0 : ¬ data.length = 0 := by omega
  have h1 := strstr_of_infix_cstr data [NUL] hs
  simp [ScanAndPlot.iteration, h0, h1]

/-! ### Lemmas on the drain of scanwitharg.c -/

theorem swa_drainLoop_append (pre rest : List ScanWithArg.TimedObs) (st : ScanWithArg.DrainState)
    (h : (ScanWithArg.drainLoop pre st).status = DrainStatus.running) :
    ScanWithArg.drainLoop (pre ++ rest) st
      = ScanWithArg.drainLoop rest (ScanWithArg.drainLoop pre st) := by
  induction pre generalizing st with
  | nil => rfl
  | cons o pre ih =>
    by_cases hr : (ScanWithArg.iteration o st).status = DrainStatus.running
    · simp only [List.cons_append, ScanWithArg.drainLoop, hr, if_true] at h ⊢
      exact ih _ h
    · simp only [ScanWithArg.drainLoop, hr, if_false] at h

theorem swa_drainLoop_single (o : ScanWithArg.TimedObs) (st : ScanWithArg.DrainState) :
    ScanWithArg.drainLoop [o] st = ScanWithArg.iteration o st := by
  simp [ScanWithArg.drainLoop]

theorem sap_drainLoop_single (o : Obs) (st : ScanAndPlot.DrainState) :
    ScanAndPlot.drainLoop [o] st = ScanAndPlot.iteration o st := by
  simp [ScanAndPlot.drainLoop]

theorem swa_drainLoop_stop (o : ScanWithArg.TimedObs) (rest : List ScanWithArg.TimedObs)
    (st : ScanWithArg.DrainState)
    (h : (ScanWithArg.iteration o st).status ≠ DrainStatus.running) :
    ScanWithArg.drainLoop (o :: rest) st = ScanWithArg.iteration o st := by
  simp [ScanWithArg.drainLoop, h]

theorem sap_drainLoop_stop (o : Obs) (rest : List Obs) (st : ScanAndPlot.DrainState)
    (h : (ScanAndPlot.iteration o st).status ≠ DrainStatus.running) :
    ScanAndPlot.drainLoop (o :: rest) st = ScanAndPlot.iteration o st := by
  simp [ScanAndPlot.drainLoop, h]

theorem swa_iteration_sentinel (time : Int) (data beyond : List Char)
    (st : ScanWithArg.DrainState)
    (hcount : 1 ≤ data.length) (hs : searchString <:+: cstr data) :
    (ScanWithArg.iteration ⟨time, Obs.chunk data, beyond⟩ st).status = DrainStatus.completed ∧
    (ScanWithArg.iteration ⟨time, Obs.chunk data, beyond⟩ st).polls = st.polls + 1 ∧
    (ScanWithArg.iteration ⟨time, Obs.chunk data, beyond⟩ st).chunkReads = st.chunkReads + 1 ∧
    (ScanWithArg.iteration ⟨time, Obs.chunk data, beyond⟩ st).writes = st.writes := by
  have h0 : ¬ data.length = 0 := by omega
  have h1 := strstr_of_infix_cstr data beyond hs
  simp [ScanWithArg.iteration, h0, h1]

/-! ### C3 -/

/-- C3, as the code has it.  In both drain loops (scanandplot.c and
scanwitharg.c) the search is `strstr`, which reads the chunk as a C string.
For every successfully read chunk of at least one byte in which the sentinel
occurs before any NUL byte, the loop ends in that iteration: the run does not
depend on what the device would offer next (`rest`), it ends `completed`, and
exactly one poll and one chunk read are issued beyond those of `pre`. -/
theorem sentinel_before_nul_ends_drain (pre rest : List Obs)
    (start : Int) (tpre trest : List ScanWithArg.TimedObs) (time : Int)
    (data beyond : List Char)
    (hrun : (ScanAndPlot.ReadLuaInfo true pre).status = DrainStatus.running)
    (htrun : (ScanWithArg.ReadLuaInfo true start tpre).status = DrainStatus.running)
    (hcount : 1 ≤ data.length) (hs : searchString <:+: cstr data) :
    (ScanAndPlot.ReadLuaInfo true (pre ++ Obs.chunk data :: rest)
        = ScanAndPlot.ReadLuaInfo true (pre ++ [Obs.chunk data]) ∧
      (ScanAndPlot.ReadLuaInfo true (pre ++ Obs.chunk data :: rest)).status
        = DrainStatus.completed ∧
      (ScanAndPlot.ReadLuaInfo true (pre ++ Obs.chunk data :: rest)).polls
        = (ScanAndPlot.ReadLuaInfo true pre).polls + 1 ∧
      (ScanAndPlot.ReadLuaInfo true (pre ++ Obs.chunk data :: rest)).chunkReads
        = (ScanAndPlot.ReadLuaInfo true pre).chunkReads + 1) ∧
    (ScanWithArg.ReadLuaInfo true start (tpre ++ ⟨time, Obs.chunk data, beyond⟩ :: trest)
        = ScanWithArg.ReadLuaInfo true start (tpre ++ [⟨time, Obs.chunk data, beyond⟩]) ∧
      (ScanWithArg.ReadLuaInfo true start
          (tpre ++ ⟨time, Obs.chunk data, beyond⟩ :: trest)).status
        = DrainStatus.completed ∧
      (ScanWithArg.ReadLuaInfo true start
          (tpre ++ ⟨time, Obs.chunk data, beyond⟩ :: trest)).polls
        = (ScanWithArg.ReadLuaInfo true start tpre).polls + 1 ∧
      (ScanWithArg.ReadLuaInfo true start
          (tpre ++ ⟨time, Obs.chunk data, beyond⟩ :: trest)).chunkReads
        = (ScanWithArg.ReadLuaInfo true start tpre).chunkReads + 1) := by
  constructor
  · simp only [ScanAndPlot.ReadLuaInfo, if_true] at hrun ⊢
    obtain ⟨i1, i2, i3⟩ := sap_iteration_sentinel data
      (ScanAndPlot.drainLoop pre
        { sink := [], polls := 0, chunkReads := 0, status := DrainStatus.running })
      hcount hs
    have hne : (ScanAndPlot.iteration (Obs.chunk data)
        (ScanAndPlot.drainLoop pre
          { sink := [], polls := 0, chunkReads := 0, status := DrainStatus.running })).status
        ≠ DrainStatus.running := by
      rw [i1]
      decide
    rw [sap_drainLoop_append _ _ _ hrun, sap_drainLoop_append _ _ _ hrun,
      sap_drainLoop_stop _ _ _ hne, sap_drainLoop_single]
    exact ⟨rfl, i1, i2, i3⟩
  · simp only [ScanWithArg.ReadLuaInfo, if_true] at htrun ⊢
    obtain ⟨i1, i2, i3, _⟩ := swa_iteration_sentinel time data beyond
      (ScanWithArg.drainLoop tpre
        { lastDataTime := start, sink := [], polls := 0, chunkReads := 0, writes := [],
          status := DrainStatus.running })
      hcount hs
    have hne : (ScanWithArg.iteration ⟨time, Obs.chunk data, beyond⟩
        (ScanWithArg.drainLoop tpre
          { lastDataTime := start, sink := [], polls := 0, chunkReads := 0, writes := [],
            status := DrainStatus.running })).status
        ≠ DrainStatus.running := by
      rw [i1]
      decide
    rw [swa_drainLoop_append _ _ _ htrun, swa_drainLoop_append _ _ _ htrun,
      swa_drainLoop_stop _ _ _ hne, swa_drainLoop_single]
    exact ⟨rfl, i1, i2, i3⟩

/-- C3 at a concrete run: one ordinary chunk, then a chunk with the sentinel. -/
theorem sentinel_before_nul_ends_drain_witness :
    (ScanAndPlot.ReadLuaInfo true [Obs.chunk ['a']]).status = DrainStatus.running ∧
    (ScanWithArg.ReadLuaInfo true 0 [⟨1, Obs.chunk ['a'], []⟩]).status = DrainStatus.running ∧
    1 ≤ sentinelChunk.length ∧ searchString <:+: cstr sentinelChunk ∧
    (ScanAndPlot.ReadLuaInfo true
        ([Obs.chunk ['a']] ++ Obs.chunk sentinelChunk :: [Obs.chunk ['b']])).polls
      = (ScanAndPlot.ReadLuaInfo true [Obs.chunk ['a']]).polls + 1 ∧
    (ScanWithArg.ReadLuaInfo true 0
        ([⟨1, Obs.chunk ['a'], []⟩] ++ ⟨2, Obs.chunk sentinelChunk, ['z']⟩
          :: [⟨3, Obs.chunk ['b'], []⟩])).status
      = DrainStatus.completed :=
  have hrun : (ScanAndPlot.ReadLuaInfo true [Obs.chunk ['a']]).status = DrainStatus.running := by
    decide
  have htrun : (ScanWithArg.ReadLuaInfo true 0 [⟨1, Obs.chunk ['a'], []⟩]).status
      = DrainStatus.running := by
    decide
  have hcount : 1 ≤ sentinelChunk.length := by decide
  have hs : searchString <:+: cstr sentinelChunk := ⟨['o', 'k', '\n'], ['\n'], by decide⟩
  have key := sentinel_before_nul_ends_drain [Obs.chunk ['a']] [Obs.chunk ['b']] 0
    [⟨1, Obs.chunk ['a'], []⟩] [⟨3, Obs.chunk ['b'], []⟩] 2 sentinelChunk ['z']
    hrun htrun hcount hs
  ⟨hrun, htrun, hcount, hs, key.1.2.2.1, key.2.2.1⟩

/-- C3 as stated fails on a chunk with a NUL byte before the sentinel.  The
chunk `nulChunk` has 27 bytes and contains the sentinel as a contiguous
substring, yet after it the loop of either file is still running and goes on to
poll and read the next chunk. -/
theorem sentinel_after_nul_missed :
    1 ≤ nulChunk.length ∧ searchString <:+: nulChunk ∧
    (ScanAndPlot.ReadLuaInfo true [Obs.chunk nulChunk, Obs.chunk ['x']]).status
      = DrainStatus.running ∧
    (ScanAndPlot.ReadLuaInfo true [Obs.chunk nulChunk, Obs.chunk ['x']]).polls = 2 ∧
    (ScanAndPlot.ReadLuaInfo true [Obs.chunk nulChunk, Obs.chunk ['x']]).chunkReads = 2 ∧
    (ScanWithArg.ReadLuaInfo true 0
        [⟨1, Obs.chunk nulChunk, []⟩, ⟨2, Obs.chunk ['x'], []⟩]).status
      = DrainStatus.running ∧
    (ScanWithArg.ReadLuaInfo true 0
        [⟨1, Obs.chunk nulChunk, []⟩, ⟨2, Obs.chunk ['x'], []⟩]).polls = 2 ∧
    (ScanWithArg.ReadLuaInfo true 0
        [⟨1, Obs.chunk nulChunk, []⟩, ⟨2, Obs.chunk ['x'], []⟩]).chunkReads = 2 := by
  refine ⟨by decide, ⟨[NUL], [], by simp [nulChunk]⟩, ?_, ?_, ?_, ?_, ?_, ?_⟩ <;> decide

/-! ### C9 -/

theorem chunksOf_append (a b : List Obs) : chunksOf (a ++ b) = chunksOf a ++ chunksOf b := by
  induction a with
  | nil => rfl
  | cons o a ih =>
    rw [List.cons_append, chunksOf_cons, chunksOf_cons o a, ih, List.append_assoc]

theorem sap_iteration_completed (o : Obs) (st : ScanAndPlot.DrainState)
    (hst : st.status = DrainStatus.running)
    (h : (ScanAndPlot.iteration o st).status = DrainStatus.completed) :
    ∃ data, o = Obs.chunk data ∧ 1 ≤ data.length ∧ strstr (data ++ [NUL]) searchString = true := by
  cases o with
  | pollError => simp [ScanAndPlot.iteration, ErrorCheck] at h
  | readError n =>
    by_cases h0 : n = 0 <;> simp [ScanAndPlot.iteration, ErrorCheck, h0, hst] at h
  | chunk data =>
    by_cases h0 : data.length = 0
    · simp [ScanAndPlot.iteration, h0, hst] at h
    · by_cases h2 : strstr (data ++ [NUL]) searchString = true
      · exact ⟨data, rfl, by omega, h2⟩
      · simp [ScanAndPlot.iteration, ErrorCheck, h0, h2, hst] at h

theorem sap_drainLoop_completed (obs : List Obs) (st : ScanAndPlot.DrainState)
    (hst : st.status = DrainStatus.running)
    (h : (ScanAndPlot.drainLoop obs st).status = DrainStatus.completed) :
    ∃ pre data, obs.take ((ScanAndPlot.drainLoop obs st).polls - st.polls)
        = pre ++ [Obs.chunk data] ∧
      1 ≤ data.length ∧ strstr (data ++ [NUL]) searchString = true := by
  induction obs generalizing st with
  | nil =>
    simp only [ScanAndPlot.drainLoop] at h
    rw [hst] at h
    exact absurd h (by decide)
  | cons o obs ih =>
    by_cases hr : (ScanAndPlot.iteration o st).status = DrainStatus.running
    · simp only [ScanAndPlot.drainLoop, hr, if_true] at h ⊢
      obtain ⟨pre, data, e, h1, h2⟩ := ih _ hr h
      have hge := sap_drainLoop_polls_ge obs (ScanAndPlot.iteration o st)
      rw [sap_iteration_polls] at hge e
      refine ⟨o :: pre, data, ?_, h1, h2⟩
      have e2 : (ScanAndPlot.drainLoop obs (ScanAndPlot.iteration o st)).polls - st.polls
          = ((ScanAndPlot.drainLoop obs (ScanAndPlot.iteration o st)).polls - (st.polls + 1)) + 1 := by
        omega
      rw [e2, List.take_succ_cons, e, List.cons_append]
    · simp only [ScanAndPlot.drainLoop, hr, if_false] at h ⊢
      obtain ⟨data, e, h1, h2⟩ := sap_iteration_completed o st hst h
      refine ⟨[], data, ?_, h1, h2⟩
      rw [sap_iteration_polls]
      have e2 : st.polls + 1 - st.polls = 1 := by omega
      rw [e2, e]
      rfl

/-- C9. Whenever and however the drain loop of scanandplot.c stops, the bytes
in the sink `lua_output.txt` are exactly the concatenation, in arrival order,
of the data of every successfully read chunk among the observations the loop
consumed (one per poll): nothing is added, dropped or changed, and each chunk
contributes its `numBytes` bytes.  When the loop ends on the sentinel, the last
consumed observation is the chunk in which `strstr` found it, and its bytes are
the tail of the sink. -/
theorem sink_is_concatenation_of_chunks (obs : List Obs) :
    (ScanAndPlot.ReadLuaInfo true obs).sink
      = (chunksOf (obs.take (ScanAndPlot.ReadLuaInfo true obs).polls)).flatten ∧
    ((ScanAndPlot.ReadLuaInfo true obs).status = DrainStatus.completed →
      ∃ pre data, obs.take (ScanAndPlot.ReadLuaInfo true obs).polls = pre ++ [Obs.chunk data] ∧
        1 ≤ data.length ∧ strstr (data ++ [NUL]) searchString = true ∧
        (ScanAndPlot.ReadLuaInfo true obs).sink = (chunksOf pre).flatten ++ data) := by
  have hs := sap_drainLoop_sink obs
    { sink := [], polls := 0, chunkReads := 0, status := DrainStatus.running }
  simp only [List.nil_append, Nat.sub_zero] at hs
  refine ⟨by simpa [ScanAndPlot.ReadLuaInfo] using hs, ?_⟩
  intro hc
  simp only [ScanAndPlot.ReadLuaInfo, if_true] at hc ⊢
  obtain ⟨pre, data, e, h1, h2⟩ := sap_drainLoop_completed obs
    { sink := [], polls := 0, chunkReads := 0, status := DrainStatus.running } rfl hc
  simp only [Nat.sub_zero] at e
  refine ⟨pre, data, e, h1, h2, ?_⟩
  rw [hs, e, chunksOf_append]
  simp [chunksOf]

/-- C9 at a concrete run: a chunk with control bytes, a zero poll, the sentinel
chunk, and one more chunk that is never read. -/
theorem sink_is_concatenation_of_chunks_witness :
    (ScanAndPlot.ReadLuaInfo true
        [Obs.chunk ['a', NUL, '\n'], Obs.chunk [], Obs.chunk sentinelChunk, Obs.chunk ['b']]).status
      = DrainStatus.completed ∧
    (ScanAndPlot.ReadLuaInfo true
        [Obs.chunk ['a', NUL, '\n'], Obs.chunk [], Obs.chunk sentinelChunk, Obs.chunk ['b']]).sink
      = ['a', NUL, '\n'] ++ sentinelChunk :=
  ⟨by decide,
   (sink_is_concatenation_of_chunks
      [Obs.chunk ['a', NUL, '\n'], Obs.chunk [], Obs.chunk sentinelChunk, Obs.chunk ['b']]).1.trans
      (by decide)⟩

/-! ### C4 -/

theorem swa_iteration_polls (o : ScanWithArg.TimedObs) (st : ScanWithArg.DrainState) :
    (ScanWithArg.iteration o st).polls = st.polls + 1 := by
  obtain ⟨time, ob, beyond⟩ := o
  cases ob with
  | pollError => simp [ScanWithArg.iteration]
  | readError n =>
    by_cases h : n = 0
    · by_cases h2 : time - st.lastDataTime > 10 <;>
        simp [ScanWithArg.iteration, ScanWithArg.zeroBranch, h, h2]
    · simp [ScanWithArg.iteration, h]
  | chunk data =>
    by_cases h : data.length = 0
    · by_cases h2 : time - st.lastDataTime > 10 <;>
        simp [ScanWithArg.iteration, ScanWithArg.zeroBranch, h, h2]
    · by_cases h3 : strstr (data ++ beyond) searchString = true <;>
        simp [ScanWithArg.iteration, h, h3]

/-- What one iteration does to the abort write and to the idle clock, from a
running state that has issued no write. -/
theorem swa_iteration_spec (o : ScanWithArg.TimedObs) (st : ScanWithArg.DrainState)
    (hst : st.status = DrainStatus.running) (hw : st.writes = []) :
    ((o.obs.numBytes = some 0 ∧ o.time - st.lastDataTime > 10) →
      (ScanWithArg.iteration o st).status = DrainStatus.timedOut ∧
      (ScanWithArg.iteration o st).writes = [(61998, 1279918080)]) ∧
    (¬ (o.obs.numBytes = some 0 ∧ o.time - st.lastDataTime > 10) →
      (ScanWithArg.iteration o st).status ≠ DrainStatus.timedOut ∧
      (ScanWithArg.iteration o st).writes = []) ∧
    ((ScanWithArg.iteration o st).status = DrainStatus.running →
      (ScanWithArg.iteration o st).lastDataTime
        = ScanWithArg.lastNonZeroTime st.lastDataTime [o]) := by
  obtain ⟨time, ob, beyond⟩ := o
  cases ob with
  | pollError =>
    simp [ScanWithArg.iteration, Obs.numBytes, ErrorCheck, hw, ScanWithArg.lastNonZeroTime]
  | readError n =>
    by_cases h : n = 0
    · subst h
      by_cases h2 : time - st.lastDataTime > 10 <;>
        simp [ScanWithArg.iteration, ScanWithArg.zeroBranch, Obs.numBytes, h2, hw, hst,
          ScanWithArg.lastNonZeroTime]
    · obtain ⟨k, rfl⟩ := Nat.exists_eq_succ_of_ne_zero h
      simp [ScanWithArg.iteration, Obs.numBytes, ErrorCheck, hw, ScanWithArg.lastNonZeroTime]
  | chunk data =>
    cases data with
    | nil =>
      by_cases h2 : time - st.lastDataTime > 10 <;>
        simp [ScanWithArg.iteration, ScanWithArg.zeroBranch, Obs.numBytes, h2, hw, hst,
          ScanWithArg.lastNonZeroTime]
    | cons c data =>
      by_cases h3 : strstr (c :: (data ++ beyond)) searchString = true <;>
        simp [ScanWithArg.iteration, Obs.numBytes, ErrorCheck, hw, hst, h3,
          ScanWithArg.lastNonZeroTime]

theorem lastNonZeroTime_append (start : Int) (a b : List ScanWithArg.TimedObs) :
    ScanWithArg.lastNonZeroTime start (a ++ b)
      = ScanWithArg.lastNonZeroTime (ScanWithArg.lastNonZeroTime start a) b := by
  induction a generalizing start with
  | nil => rfl
  | cons o a ih =>
    simp only [List.cons_append, ScanWithArg.lastNonZeroTime]
    split <;> exact ih _

/-- While the loop is running it has issued no write, its `lastDataTime` is the
time of the most recent non-zero poll and it has polled once per observation. -/
theorem swa_drainLoop_running (obs : List ScanWithArg.TimedObs) (st : ScanWithArg.DrainState)
    (hst : st.status = DrainStatus.running) (hw : st.writes = [])
    (h : (ScanWithArg.drainLoop obs st).status = DrainStatus.running) :
    (ScanWithArg.drainLoop obs st).writes = [] ∧
    (ScanWithArg.drainLoop obs st).lastDataTime
      = ScanWithArg.lastNonZeroTime st.lastDataTime obs ∧
    (ScanWithArg.drainLoop obs st).polls = st.polls + obs.length := by
  induction obs generalizing st with
  | nil => exact ⟨hw, rfl, rfl⟩
  | cons o obs ih =>
    by_cases hr : (ScanWithArg.iteration o st).status = DrainStatus.running
    · simp only [ScanWithArg.drainLoop, hr, if_true] at h ⊢
      obtain ⟨s1, s2, s3⟩ := swa_iteration_spec o st hst hw
      have hnot : ¬ (o.obs.numBytes = some 0 ∧ o.time - st.lastDataTime > 10) := by
        intro hc
        have := (s1 hc).1
        rw [hr] at this
        exact absurd this (by decide)
      obtain ⟨k1, k2, k3⟩ := ih (ScanWithArg.iteration o st) hr (s2 hnot).2 h
      refine ⟨k1, ?_, ?_⟩
      · rw [k2, s3 hr]
        exact (lastNonZeroTime_append st.lastDataTime [o] obs).symm
      · rw [k3, swa_iteration_polls, List.length_cons]
        omega
    · simp only [ScanWithArg.drainLoop, hr, if_false] at h

/-- Over a whole run: at most the one abort write, and it is there exactly when
the run timed out. -/
theorem swa_drainLoop_writes (obs : List ScanWithArg.TimedObs) (st : ScanWithArg.DrainState)
    (hst : st.status = DrainStatus.running) (hw : st.writes = []) :
    ((ScanWithArg.drainLoop obs st).status = DrainStatus.timedOut →
      (ScanWithArg.drainLoop obs st).writes = [(61998, 1279918080)]) ∧
    ((ScanWithArg.drainLoop obs st).status ≠ DrainStatus.timedOut →
      (ScanWithArg.drainLoop obs st).writes = []) := by
  induction obs generalizing st with
  | nil =>
    simp only [ScanWithArg.drainLoop]
    refine ⟨?_, fun _ => hw⟩
    intro h
    rw [hst] at h
    exact absurd h (by decide)
  | cons o obs ih =>
    obtain ⟨s1, s2, _⟩ := swa_iteration_spec o st hst hw
    by_cases hc : o.obs.numBytes = some 0 ∧ o.time - st.lastDataTime > 10
    · have hne : (ScanWithArg.iteration o st).status ≠ DrainStatus.running := by
        rw [(s1 hc).1]
        decide
      rw [swa_drainLoop_stop o obs st hne]
      exact ⟨fun _ => (s1 hc).2, fun h => absurd (s1 hc).1 h⟩
    · by_cases hr : (ScanWithArg.iteration o st).status = DrainStatus.running
      · simp only [ScanWithArg.drainLoop, hr, if_true]
        exact ih (ScanWithArg.iteration o st) hr (s2 hc).2
      · rw [swa_drainLoop_stop o obs st hr]
        exact ⟨fun h => absurd h (s2 hc).1, fun _ => (s2 hc).2⟩

/-- C4. `ReadLuaInfo` of scanwitharg.c over a sequence of timed polls.  Let
the loop be still running after the observations `pre`.  Then: no write has been
issued so far and `lastDataTime` is the time of the most recent non-zero poll
(the start time if there is none), so the idle clock is reset by every non-zero
poll; the next observation `o` triggers the abort write to address 61998
exactly when its poll reports zero bytes at a time more than 10 s after that
moment; when it does, the loop ends in that iteration with status `timedOut`,
whatever would follow (`rest`), after `pre.length + 1` polls and exactly that
one write.  For any run `all`: at most one write is issued, it is there exactly
when the run timed out, and a run that ends on the sentinel issues none. -/
theorem abort_write_exactly_on_idle_timeout (start : Int)
    (pre rest all : List ScanWithArg.TimedObs) (o : ScanWithArg.TimedObs)
    (hrun : (ScanWithArg.ReadLuaInfo true start pre).status = DrainStatus.running) :
    (ScanWithArg.ReadLuaInfo true start pre).writes = [] ∧
    (ScanWithArg.ReadLuaInfo true start pre).lastDataTime
      = ScanWithArg.lastNonZeroTime start pre ∧
    ((ScanWithArg.ReadLuaInfo true start (pre ++ [o])).writes = [(61998, 1279918080)] ↔
      (o.obs.numBytes = some 0 ∧ o.time - ScanWithArg.lastNonZeroTime start pre > 10)) ∧
    ((ScanWithArg.ReadLuaInfo true start (pre ++ [o])).writes = [] ↔
      ¬ (o.obs.numBytes = some 0 ∧ o.time - ScanWithArg.lastNonZeroTime start pre > 10)) ∧
    ((o.obs.numBytes = some 0 ∧ o.time - ScanWithArg.lastNonZeroTime start pre > 10) →
      ScanWithArg.ReadLuaInfo true start (pre ++ o :: rest)
        = ScanWithArg.ReadLuaInfo true start (pre ++ [o]) ∧
      (ScanWithArg.ReadLuaInfo true start (pre ++ o :: rest)).status = DrainStatus.timedOut ∧
      (ScanWithArg.ReadLuaInfo true start (pre ++ o :: rest)).polls = pre.length + 1 ∧
      (ScanWithArg.ReadLuaInfo true start (pre ++ o :: rest)).writes
        = [(61998, 1279918080)]) ∧
    (ScanWithArg.ReadLuaInfo true start all).writes.length ≤ 1 ∧
    ((ScanWithArg.ReadLuaInfo true start all).writes = [(61998, 1279918080)] ↔
      (ScanWithArg.ReadLuaInfo true start all).status = DrainStatus.timedOut) ∧
    ((ScanWithArg.ReadLuaInfo true start all).status = DrainStatus.completed →
      (ScanWithArg.ReadLuaInfo true start all).writes = []) := by
  simp only [ScanWithArg.ReadLuaInfo, if_true] at hrun ⊢
  obtain ⟨r1, r2, r3⟩ := swa_drainLoop_running pre
    { lastDataTime := start, sink := [], polls := 0, chunkReads := 0, writes := [],
      status := DrainStatus.running } rfl rfl hrun
  simp only [Nat.zero_add] at r2 r3
  obtain ⟨s1, s2, _⟩ := swa_iteration_spec o _ hrun r1
  rw [r2] at s1 s2
  obtain ⟨w1, w2⟩ := swa_drainLoop_writes all
    { lastDataTime := start, sink := [], polls := 0, chunkReads := 0, writes := [],
      status := DrainStatus.running } rfl rfl
  rw [swa_drainLoop_append _ _ _ hrun, swa_drainLoop_append _ _ _ hrun, swa_drainLoop_single]
  refine ⟨r1, r2, ?_, ?_, ?_, ?_, ?_, ?_⟩
  · constructor
    · intro hw
      by_contra hc
      rw [(s2 hc).2] at hw
      exact absurd hw (by decide)
    · intro hc
      exact (s1 hc).2
  · constructor
    · intro hw hc
      rw [(s1 hc).2] at hw
      exact absurd hw (by decide)
    · intro hc
      exact (s2 hc).2
  · intro hc
    have hne : (ScanWithArg.iteration o (ScanWithArg.drainLoop pre
        { lastDataTime := start, sink := [], polls := 0, chunkReads := 0, writes := [],
          status := DrainStatus.running })).status ≠ DrainStatus.running := by
      rw [(s1 hc).1]
      decide
    rw [swa_drainLoop_stop _ _ _ hne]
    refine ⟨rfl, (s1 hc).1, ?_, (s1 hc).2⟩
    rw [swa_iteration_polls, r3]
  · by_cases ht : (ScanWithArg.drainLoop all
        { lastDataTime := start, sink := [], polls := 0, chunkReads := 0, writes := [],
          status := DrainStatus.running }).status = DrainStatus.timedOut
    · rw [w1 ht]
      simp
    · rw [w2 ht]
      simp
  · constructor
    · intro hw
      by_contra ht
      rw [w2 ht] at hw
      exact absurd hw (by decide)
    · exact w1
  · intro hcmp
    apply w2
    rw [hcmp]
    decide

/-- C4 at a concrete run: data at time 3, a zero poll at time 9 (6 s idle, the
loop goes on), a zero poll at time 14 (11 s idle, abort), and a chunk that is
never polled. -/
theorem abort_write_exactly_on_idle_timeout_witness :
    (ScanWithArg.ReadLuaInfo true 0
        [⟨3, Obs.chunk ['a'], []⟩, ⟨9, Obs.chunk [], []⟩]).status = DrainStatus.running ∧
    ScanWithArg.lastNonZeroTime 0 [⟨3, Obs.chunk ['a'], []⟩, ⟨9, Obs.chunk [], []⟩] = 3 ∧
    (ScanWithArg.ReadLuaInfo true 0
        ([⟨3, Obs.chunk ['a'], []⟩, ⟨9, Obs.chunk [], []⟩] ++
          (⟨14, Obs.chunk [], []⟩ : ScanWithArg.TimedObs) :: [⟨15, Obs.chunk ['b'], []⟩])).writes
      = [(61998, 1279918080)] ∧
    (ScanWithArg.ReadLuaInfo true 0
        ([⟨3, Obs.chunk ['a'], []⟩, ⟨9, Obs.chunk [], []⟩] ++
          (⟨14, Obs.chunk [], []⟩ : ScanWithArg.TimedObs) :: [⟨15, Obs.chunk ['b'], []⟩])).polls
      = 3 :=
  have hrun : (ScanWithArg.ReadLuaInfo true 0
      [⟨3, Obs.chunk ['a'], []⟩, ⟨9, Obs.chunk [], []⟩]).status = DrainStatus.running := by
    decide
  have hlast : ScanWithArg.lastNonZeroTime 0
      [⟨3, Obs.chunk ['a'], []⟩, ⟨9, Obs.chunk [], []⟩] = 3 := by
    decide
  have key := (abort_write_exactly_on_idle_timeout 0
    [⟨3, Obs.chunk ['a'], []⟩, ⟨9, Obs.chunk [], []⟩] [⟨15, Obs.chunk ['b'], []⟩] []
    ⟨14, Obs.chunk [], []⟩ hrun).2.2.2.2.1 ⟨rfl, by rw [hlast]; decide⟩
  ⟨hrun, hlast, key.2.2.2, key.2.2.1⟩

/-! ### Lemmas on the parse -/

theorem scanTokens_eq {F : Type} (atof : List Char → F) (toks : List (List Char)) (vals : List F) :
    scanTokens atof toks vals
      = vals ++ (toks.take (NUM_VALUES_PER_LINE - vals.length)).map atof := by
  induction toks generalizing vals with
  | nil => simp [scanTokens]
  | cons t more ih =>
    unfold scanTokens
    by_cases h : vals.length < NUM_VALUES_PER_LINE
    · rw [if_pos h, ih]
      have e : NUM_VALUES_PER_LINE - vals.length
          = (NUM_VALUES_PER_LINE - (vals ++ [atof t]).length) + 1 := by
        rw [List.length_append, List.length_singleton]
        omega
      rw [e, List.take_succ_cons, List.map_cons, List.append_assoc]
      rfl
    · rw [if_neg h]
      have e : NUM_VALUES_PER_LINE - vals.length = 0 := by omega
      rw [e]
      simp

theorem scanTokens_nil {F : Type} (atof : List Char → F) (line : List Char) :
    scanTokens atof (strtokAll line) [] = lineValues atof line := by
  rw [scanTokens_eq]
  simp [lineValues]

theorem lineValues_length {F : Type} (atof : List Char → F) (line : List Char) :
    (lineValues atof line).length = min NUM_VALUES_PER_LINE (strtokAll line).length := by
  simp [lineValues]

theorem chunkLoop_filter {F : Type} (atof : List Char → F) (rowIndex : Nat)
    (lines : List (List Char)) (chunkLine : Nat) (rowValues : List F) :
    chunkLoop atof rowIndex (lines.filter nonSpacer) chunkLine rowValues
      = match chunkLoop atof rowIndex lines chunkLine rowValues with
        | ChunkResult.row rv rest => ChunkResult.row rv (rest.filter nonSpacer)
        | ChunkResult.eofError a b => ChunkResult.eofError a b
        | ChunkResult.countError n => ChunkResult.countError n := by
  induction lines generalizing chunkLine rowValues with
  | nil =>
    unfold chunkLoop
    by_cases hc : chunkLine < NUM_CHUNK_LINES <;> simp [hc]
  | cons l rest ih =>
    by_cases hc : chunkLine < NUM_CHUNK_LINES
    · by_cases hl : strlen l < 2
      · have hns : nonSpacer l = false := by
          simp [nonSpacer]
          omega
        rw [List.filter_cons_of_neg (by simp [hns])]
        rw [ih]
        conv_rhs => unfold chunkLoop
        simp [hc, hl]
      · have hns : nonSpacer l = true := by
          simp [nonSpacer]
          omega
        rw [List.filter_cons_of_pos hns]
        unfold chunkLoop
        simp only [hc, hl, if_true, if_false]
        by_cases hn : (scanTokens atof (strtokAll l) []).length < NUM_VALUES_PER_LINE
        · simp [hn]
        · simp only [hn, if_false]
          exact ih _ _
    · unfold chunkLoop
      simp [hc]

theorem rowLoop_filter {F : Type} [Zero F] (atof : List Char → F) (remaining rowIndex : Nat)
    (lines : List (List Char)) (data : List (List F)) :
    rowLoop atof remaining rowIndex (lines.filter nonSpacer) data
      = rowLoop atof remaining rowIndex lines data := by
  induction remaining generalizing rowIndex lines data with
  | zero => simp [rowLoop]
  | succ k ih =>
    unfold rowLoop
    rw [chunkLoop_filter]
    cases chunkLoop atof rowIndex lines 0 (List.replicate NUM_VALUES_PER_ROW (0 : F)) with
    | eofError a b => rfl
    | countError n => rfl
    | row rv rest => exact ih _ _ _

theorem chunkLoop_nil {F : Type} (atof : List Char → F) (rowIndex chunkLine : Nat)
    (rowValues : List F) (hc : chunkLine < NUM_CHUNK_LINES) :
    chunkLoop atof rowIndex [] chunkLine rowValues = ChunkResult.eofError rowIndex chunkLine := by
  unfold chunkLoop
  simp [hc]

theorem chunkLoop_done {F : Type} (atof : List Char → F) (rowIndex chunkLine : Nat)
    (lines : List (List Char)) (rowValues : List F) (hc : ¬ chunkLine < NUM_CHUNK_LINES) :
    chunkLoop atof rowIndex lines chunkLine rowValues = ChunkResult.row rowValues lines := by
  unfold chunkLoop
  simp [hc]

theorem chunkLoop_short {F : Type} (atof : List Char → F) (rowIndex chunkLine : Nat)
    (line : List Char) (rest : List (List Char)) (rowValues : List F)
    (hc : chunkLine < NUM_CHUNK_LINES) (hl : nonSpacer line = true)
    (hn : (strtokAll line).length < NUM_VALUES_PER_LINE) :
    chunkLoop atof rowIndex (line :: rest) chunkLine rowValues
      = ChunkResult.countError (strtokAll line).length := by
  have hl2 : ¬ strlen line < 2 := by
    simp [nonSpacer] at hl
    omega
  have hlen : (lineValues atof line).length = (strtokAll line).length := by
    rw [lineValues_length]
    omega
  unfold chunkLoop
  simp only [hc, hl2, if_true, if_false, scanTokens_nil, hlen, hn]

theorem chunkLoop_full {F : Type} (atof : List Char → F) (rowIndex chunkLine : Nat)
    (line : List Char) (rest : List (List Char)) (rowValues : List F)
    (hc : chunkLine < NUM_CHUNK_LINES) (hl : nonSpacer line = true)
    (hn : NUM_VALUES_PER_LINE ≤ (strtokAll line).length) :
    chunkLoop atof rowIndex (line :: rest) chunkLine rowValues
      = chunkLoop atof rowIndex rest (chunkLine + 1)
          (memcpyAt rowValues (chunkLine * NUM_VALUES_PER_LINE) (lineValues atof line)
            NUM_VALUES_PER_LINE) := by
  have hl2 : ¬ strlen line < 2 := by
    simp [nonSpacer] at hl
    omega
  have hlen : (lineValues atof line).length = NUM_VALUES_PER_LINE := by
    rw [lineValues_length]
    omega
  have hnot : ¬ NUM_VALUES_PER_LINE < NUM_VALUES_PER_LINE := by omega
  conv_lhs => unfold chunkLoop
  simp only [hc, hl2, if_true, if_false, scanTokens_nil, hlen, hnot]

theorem memcpy_two {F : Type} [Zero F] (v0 v1 : List F)
    (h0 : v0.length = NUM_VALUES_PER_LINE) (h1 : v1.length = NUM_VALUES_PER_LINE) :
    memcpyAt
      (memcpyAt (List.replicate NUM_VALUES_PER_ROW (0 : F)) (0 * NUM_VALUES_PER_LINE) v0
        NUM_VALUES_PER_LINE)
      ((0 + 1) * NUM_VALUES_PER_LINE) v1 NUM_VALUES_PER_LINE
      = v0 ++ v1 := by
  have e0 : v0.take NUM_VALUES_PER_LINE = v0 := List.take_of_length_le (by omega)
  have e1 : v1.take NUM_VALUES_PER_LINE = v1 := List.take_of_length_le (by omega)
  unfold memcpyAt
  rw [e0, e1]
  simp only [Nat.zero_mul, Nat.zero_add, Nat.one_mul, List.take_zero, List.nil_append]
  have a1 : (v0 ++ List.drop NUM_VALUES_PER_LINE (List.replicate NUM_VALUES_PER_ROW (0 : F))).take
      NUM_VALUES_PER_LINE = v0 := by
    rw [List.take_append_of_le_length (by omega)]
    exact List.take_of_length_le (by omega)
  have a2 : (v0 ++ List.drop NUM_VALUES_PER_LINE (List.replicate NUM_VALUES_PER_ROW (0 : F))).drop
      (NUM_VALUES_PER_LINE + NUM_VALUES_PER_LINE) = [] := by
    apply List.drop_of_length_le
    simp [h0, NUM_VALUES_PER_LINE, NUM_VALUES_PER_ROW]
  rw [a1, a2, List.append_nil]

theorem rowLoop_nil {F : Type} [Zero F] (atof : List Char → F) (k rowIndex : Nat)
    (data : List (List F)) :
    rowLoop atof (k + 1) rowIndex [] data = ParseResult.eofError rowIndex 0 := by
  unfold rowLoop
  rw [chunkLoop_nil _ _ _ _ (by decide)]

theorem rowLoop_short0 {F : Type} [Zero F] (atof : List Char → F) (k rowIndex : Nat)
    (l0 : List Char) (rest : List (List Char)) (data : List (List F))
    (hl : nonSpacer l0 = true) (hn : (strtokAll l0).length < NUM_VALUES_PER_LINE) :
    rowLoop atof (k + 1) rowIndex (l0 :: rest) data
      = ParseResult.countError (strtokAll l0).length := by
  unfold rowLoop
  rw [chunkLoop_short _ _ _ _ _ _ (by decide) hl hn]

theorem rowLoop_one {F : Type} [Zero F] (atof : List Char → F) (k rowIndex : Nat)
    (l0 : List Char) (data : List (List F))
    (hl : nonSpacer l0 = true) (hn : NUM_VALUES_PER_LINE ≤ (strtokAll l0).length) :
    rowLoop atof (k + 1) rowIndex [l0] data = ParseResult.eofError rowIndex 1 := by
  unfold rowLoop
  rw [chunkLoop_full _ _ _ _ _ _ (by decide) hl hn, chunkLoop_nil _ _ _ _ (by decide)]

theorem rowLoop_short1 {F : Type} [Zero F] (atof : List Char → F) (k rowIndex : Nat)
    (l0 l1 : List Char) (rest : List (List Char)) (data : List (List F))
    (hl0 : nonSpacer l0 = true) (hn0 : NUM_VALUES_PER_LINE ≤ (strtokAll l0).length)
    (hl1 : nonSpacer l1 = true) (hn1 : (strtokAll l1).length < NUM_VALUES_PER_LINE) :
    rowLoop atof (k + 1) rowIndex (l0 :: l1 :: rest) data
      = ParseResult.countError (strtokAll l1).length := by
  unfold rowLoop
  rw [chunkLoop_full _ _ _ _ _ _ (by decide) hl0 hn0,
    chunkLoop_short _ _ _ _ _ _ (by decide) hl1 hn1]

theorem rowLoop_two {F : Type} [Zero F] (atof : List Char → F) (k rowIndex : Nat)
    (l0 l1 : List Char) (rest : List (List Char)) (data : List (List F))
    (hl0 : nonSpacer l0 = true) (hn0 : NUM_VALUES_PER_LINE ≤ (strtokAll l0).length)
    (hl1 : nonSpacer l1 = true) (hn1 : NUM_VALUES_PER_LINE ≤ (strtokAll l1).length) :
    rowLoop atof (k + 1) rowIndex (l0 :: l1 :: rest) data
      = rowLoop atof k (rowIndex + 1) rest
          (data ++ [lineValues atof l0 ++ lineValues atof l1]) := by
  have e0 : (lineValues atof l0).length = NUM_VALUES_PER_LINE := by
    rw [lineValues_length]
    omega
  have e1 : (lineValues atof l1).length = NUM_VALUES_PER_LINE := by
    rw [lineValues_length]
    omega
  conv_lhs => unfold rowLoop
  rw [chunkLoop_full _ _ _ _ _ _ (by decide) hl0 hn0,
    chunkLoop_full _ _ _ _ _ _ (by decide) hl1 hn1,
    chunkLoop_done _ _ _ _ _ (by decide), memcpy_two _ _ e0 e1]

/-- Enough well-formed lines: the parse succeeds with the rows of the first
`2 * remaining` lines. -/
theorem rowLoop_success {F : Type} [Zero F] (atof : List Char → F) (k rowIndex : Nat)
    (L : List (List Char)) (data : List (List F))
    (hns : ∀ l ∈ L, nonSpacer l = true) (hlen : 2 * k ≤ L.length)
    (hgood : ∀ l ∈ L.take (2 * k), NUM_VALUES_PER_LINE ≤ (strtokAll l).length) :
    rowLoop atof k rowIndex L data
      = ParseResult.parsed (data ++ rowsOf atof (L.take (2 * k))) := by
  induction k generalizing rowIndex L data with
  | zero => simp [rowLoop, rowsOf]
  | succ k ih =>
    match L, hns, hlen, hgood with
    | [], _, hlen, _ => simp at hlen
    | [_], _, hlen, _ =>
      simp at hlen
      omega
    | l0 :: l1 :: rest, hns, hlen, hgood =>
      have e : 2 * (k + 1) = 2 * k + 1 + 1 := by ring
      rw [e, List.take_succ_cons, List.take_succ_cons] at hgood ⊢
      rw [rowLoop_two atof k rowIndex l0 l1 rest data
        (hns l0 (by simp)) (hgood l0 (by simp)) (hns l1 (by simp)) (hgood l1 (by simp))]
      rw [ih (rowIndex + 1) rest _ (fun l hl => hns l (by simp [hl]))
        (by simp at hlen; omega) (fun l hl => hgood l (by simp [hl]))]
      simp [rowsOf]

/-- Too few lines, all of them well formed: the end-of-file error, with the
row and chunk line at which the lines ran out. -/
theorem rowLoop_eof {F : Type} [Zero F] (atof : List Char → F) (k rowIndex : Nat)
    (L : List (List Char)) (data : List (List F))
    (hns : ∀ l ∈ L, nonSpacer l = true) (hlen : L.length < 2 * k)
    (hgood : ∀ l ∈ L, NUM_VALUES_PER_LINE ≤ (strtokAll l).length) :
    rowLoop atof k rowIndex L data
      = ParseResult.eofError (rowIndex + L.length / 2) (L.length % 2) := by
  induction k generalizing rowIndex L data with
  | zero => simp at hlen
  | succ k ih =>
    match L, hns, hlen, hgood with
    | [], _, _, _ => simp [rowLoop_nil]
    | [l0], hns, _, hgood =>
      rw [rowLoop_one atof k rowIndex l0 data (hns l0 (by simp)) (hgood l0 (by simp))]
      simp
    | l0 :: l1 :: rest, hns, hlen, hgood =>
      rw [rowLoop_two atof k rowIndex l0 l1 rest data
        (hns l0 (by simp)) (hgood l0 (by simp)) (hns l1 (by simp)) (hgood l1 (by simp))]
      rw [ih (rowIndex + 1) rest _ (fun l hl => hns l (by simp [hl]))
        (by simp at hlen; omega) (fun l hl => hgood l (by simp [hl]))]
      simp only [List.length_cons]
      congr 1 <;> omega

/-- A line with too few tokens among the lines the parser reaches: the count
error, with that line's token count. -/
theorem rowLoop_tooFew {F : Type} [Zero F] (atof : List Char → F) (k rowIndex : Nat)
    (pre : List (List Char)) (bad : List Char) (post : List (List Char)) (data : List (List F))
    (hns : ∀ l ∈ pre ++ bad :: post, nonSpacer l = true) (hlen : pre.length < 2 * k)
    (hgood : ∀ l ∈ pre, NUM_VALUES_PER_LINE ≤ (strtokAll l).length)
    (hbad : (strtokAll bad).length < NUM_VALUES_PER_LINE) :
    rowLoop atof k rowIndex (pre ++ bad :: post) data
      = ParseResult.countError (strtokAll bad).length := by
  induction k generalizing rowIndex pre data with
  | zero => simp at hlen
  | succ k ih =>
    match pre, hns, hlen, hgood with
    | [], hns, _, _ =>
      exact rowLoop_short0 atof k rowIndex bad post data (hns bad (by simp)) hbad
    | [p0], hns, _, hgood =>
      exact rowLoop_short1 atof k rowIndex p0 bad post data (hns p0 (by simp))
        (hgood p0 (by simp)) (hns bad (by simp)) hbad
    | p0 :: p1 :: pre2, hns, hlen, hgood =>
      simp only [List.cons_append]
      rw [rowLoop_two atof k rowIndex p0 p1 (pre2 ++ bad :: post) data
        (hns p0 (by simp)) (hgood p0 (by simp)) (hns p1 (by simp)) (hgood p1 (by simp))]
      exact ih (rowIndex + 1) pre2 _ (fun l hl => hns l (by simp at hl ⊢; tauto))
        (by simp at hlen; omega) (fun l hl => hgood l (by simp [hl]))

theorem rowsOf_length {F : Type} (atof : List Char → F) (L : List (List Char)) :
    (rowsOf atof L).length = L.length / 2 := by
  match L with
  | [] => simp [rowsOf]
  | [_] => simp [rowsOf]
  | l0 :: l1 :: rest =>
    simp only [rowsOf, List.length_cons, rowsOf_length atof rest]
    omega

theorem rowsOf_row_length {F : Type} (atof : List Char → F) (L : List (List Char))
    (hgood : ∀ l ∈ L, NUM_VALUES_PER_LINE ≤ (strtokAll l).length) :
    ∀ row ∈ rowsOf atof L, row.length = NUM_VALUES_PER_ROW := by
  match L, hgood with
  | [], _ => simp [rowsOf]
  | [_], _ => simp [rowsOf]
  | l0 :: l1 :: rest, hgood =>
    intro row hrow
    simp only [rowsOf, List.mem_cons] at hrow
    rcases hrow with h | h
    · have g0 := hgood l0 (by simp)
      have g1 := hgood l1 (by simp)
      rw [h, List.length_append, lineValues_length, lineValues_length]
      simp only [NUM_VALUES_PER_LINE, NUM_VALUES_PER_ROW] at g0 g1 ⊢
      omega
    · exact rowsOf_row_length atof rest (fun l hl => hgood l (by simp [hl])) row h

/-- Entry `k * 50 + c` of row `r` is the converted token `c` of line `2 * r + k`. -/
theorem rowsOf_entry {F : Type} (atof : List Char → F) (L : List (List Char))
    (hgood : ∀ l ∈ L, NUM_VALUES_PER_LINE ≤ (strtokAll l).length)
    (r k c : Nat) (hr : 2 * r + 1 < L.length) (hk : k < NUM_CHUNK_LINES)
    (hc : c < NUM_VALUES_PER_LINE) :
    entry (rowsOf atof L) r (k * NUM_VALUES_PER_LINE + c)
      = (tokenAt L (2 * r + k) c).map atof := by
  induction r generalizing L with
  | zero =>
    match L, hgood, hr with
    | l0 :: l1 :: rest, hgood, _ =>
      have g0 := hgood l0 (by simp)
      have g1 := hgood l1 (by simp)
      have e0 : (lineValues atof l0).length = NUM_VALUES_PER_LINE := by
        rw [lineValues_length]
        omega
      have hk2 : k = 0 ∨ k = 1 := by
        simp only [NUM_CHUNK_LINES] at hk
        omega
      rcases hk2 with h | h
      · subst h
        have hc0 : c < (lineValues atof l0).length := by omega
        simp only [entry, rowsOf, tokenAt, Nat.zero_mul, Nat.zero_add, Nat.mul_zero,
          List.getElem?_cons_zero, Option.some_bind]
        rw [List.getElem?_append_left hc0]
        simp [lineValues, List.getElem?_take, hc]
      · subst h
        simp only [entry, rowsOf, tokenAt, Nat.one_mul, Nat.mul_zero, Nat.zero_add,
          List.getElem?_cons_zero, List.getElem?_cons_succ, Option.some_bind]
        rw [List.getElem?_append_right (by omega), e0, Nat.add_sub_cancel_left]
        simp [lineValues, List.getElem?_take, hc]
  | succ r ih =>
    match L, hgood, hr with
    | l0 :: l1 :: rest, hgood, hr =>
      have := ih rest (fun l hl => hgood l (by simp [hl])) (by simp at hr; omega)
      have e : 2 * (r + 1) + k = (2 * r + k) + 1 + 1 := by ring
      simp only [entry, rowsOf, tokenAt, e, List.getElem?_cons_succ] at this ⊢
      exact this

/-! ### From the file to the lines -/

theorem fgetsLines_body (size : Nat) (body buf s : List Char) (hb : '\n' ∉ body)
    (hlen : buf.length + body.length + 1 ≤ size - 1) :
    fgetsLines size (body ++ '\n' :: s) buf = (buf ++ body ++ ['\n']) :: fgetsLines size s [] := by
  induction body generalizing buf with
  | nil => simp [fgetsLines]
  | cons c body ih =>
    have hc : c ≠ '\n' := fun h => hb (by simp [h])
    have hb2 : '\n' ∉ body := fun h => hb (by simp [h])
    have hfull : ¬ buf.length + 1 = size - 1 := by
      simp only [List.length_cons] at hlen
      omega
    simp only [List.cons_append, fgetsLines, hc, hfull, or_self, if_false, List.append_eq]
    rw [ih (buf ++ [c]) hb2 (by simp only [List.length_append, List.length_cons,
      List.length_nil] at hlen ⊢; omega)]
    simp

theorem wholeLine_split (l : List Char) (h : wholeLine l = true) :
    ∃ body, l = body ++ ['\n'] ∧ '\n' ∉ body ∧ body.length + 1 ≤ 1023 := by
  simp only [wholeLine, Bool.and_eq_true, decide_eq_true_eq] at h
  obtain ⟨⟨h1, h2⟩, h3⟩ := h
  have hne : l ≠ [] := by
    intro hnil
    simp [hnil] at h1
  have hl : l.getLast hne = '\n' := by
    rw [List.getLast?_eq_getLast _ hne] at h1
    exact Option.some.inj h1
  refine ⟨l.dropLast, ?_, h2, ?_⟩
  · conv_lhs => rw [← List.dropLast_append_getLast hne, hl]
  · rw [List.length_dropLast]
    have : 0 < l.length := List.length_pos.mpr hne
    omega

/-- Physical lines that fit the buffer are what `fgets` delivers. -/
theorem fgetsLines_of_lines (lines : List (List Char)) (h : ∀ l ∈ lines, wholeLine l = true) :
    fgetsLines 1024 lines.flatten [] = lines := by
  induction lines with
  | nil => simp [fgetsLines]
  | cons l lines ih =>
    obtain ⟨body, e, hb, hlen⟩ := wholeLine_split l (h l (by simp))
    rw [List.flatten_cons, e, List.append_assoc, List.singleton_append,
      fgetsLines_body 1024 body [] _ hb (by simp; omega),
      ih (fun l2 hl2 => h l2 (by simp [hl2]))]
    simp

theorem logicalLines_nonSpacer (stream : List Char) :
    ∀ l ∈ logicalLines stream, nonSpacer l = true := by
  intro l hl
  exact (List.mem_filter.mp hl).2

theorem parse_result_eq {F : Type} [Zero F] (atof : List Char → F) (stream : List Char)
    (csvOk : Bool) :
    (ParseAndPlotHeatmap atof stream csvOk).result
      = rowLoop atof NUM_TOTAL_ROWS 0 (logicalLines stream) [] := by
  unfold ParseAndPlotHeatmap logicalLines
  rw [rowLoop_filter]
  cases rowLoop atof NUM_TOTAL_ROWS 0 (fgetsLines 1024 stream []) [] <;> rfl

theorem parse_csv_eq {F : Type} [Zero F] (atof : List Char → F) (stream : List Char)
    (csvOk : Bool) :
    (ParseAndPlotHeatmap atof stream csvOk).csv
      = match rowLoop atof NUM_TOTAL_ROWS 0 (logicalLines stream) [] with
        | ParseResult.parsed data => if csvOk then some data else none
        | _ => none := by
  unfold ParseAndPlotHeatmap logicalLines
  rw [rowLoop_filter]
  cases rowLoop atof NUM_TOTAL_ROWS 0 (fgetsLines 1024 stream []) [] <;> rfl

theorem tokenAt_take (L : List (List Char)) (n i c : Nat) (hi : i < n) :
    tokenAt (L.take n) i c = tokenAt L i c := by
  simp [tokenAt, List.getElem?_take, hi]

/-- At least 200 non-spacer lines, the first 200 with at least 50 tokens each:
the parse succeeds and every entry is the converted token at its place. -/
theorem parse_success {F : Type} [Zero F] (atof : List Char → F) (stream : List Char)
    (csvOk : Bool) (hlen : 200 ≤ (logicalLines stream).length)
    (hgood : ∀ l ∈ (logicalLines stream).take 200, 50 ≤ (strtokAll l).length) :
    (ParseAndPlotHeatmap atof stream csvOk).result
      = ParseResult.parsed (rowsOf atof ((logicalLines stream).take 200)) ∧
    (ParseAndPlotHeatmap atof stream csvOk).csv
      = (if csvOk then some (rowsOf atof ((logicalLines stream).take 200)) else none) ∧
    (rowsOf atof ((logicalLines stream).take 200)).length = 100 ∧
    (∀ row ∈ rowsOf atof ((logicalLines stream).take 200), row.length = 100) ∧
    (∀ r k c, r < 100 → k < 2 → c < 50 →
      ∃ tok, tokenAt (logicalLines stream) (2 * r + k) c = some tok ∧
        entry (rowsOf atof ((logicalLines stream).take 200)) r (k * 50 + c)
          = some (atof tok)) := by
  have hrow := rowLoop_success atof NUM_TOTAL_ROWS 0 (logicalLines stream) []
    (logicalLines_nonSpacer stream) hlen hgood
  have e200 : 2 * NUM_TOTAL_ROWS = 200 := rfl
  rw [e200, List.nil_append] at hrow
  have hlt : ((logicalLines stream).take 200).length = 200 := by
    rw [List.length_take]
    omega
  refine ⟨?_, ?_, ?_, ?_, ?_⟩
  · rw [parse_result_eq, hrow]
  · rw [parse_csv_eq, hrow]
  · rw [rowsOf_length, hlt]
  · exact rowsOf_row_length atof _ hgood
  · intro r k c hr hk hc
    have hent := rowsOf_entry atof ((logicalLines stream).take 200) hgood r k c
      (by omega) hk hc
    rw [tokenAt_take _ _ _ _ (by omega)] at hent
    have hi : 2 * r + k < (logicalLines stream).length := by omega
    have hmem : (logicalLines stream)[2 * r + k] ∈ (logicalLines stream).take 200 := by
      rw [List.mem_take_iff_getElem]
      exact ⟨2 * r + k, by omega, rfl⟩
    have hc2 : c < (strtokAll (logicalLines stream)[2 * r + k]).length := by
      have := hgood _ hmem
      omega
    refine ⟨(strtokAll (logicalLines stream)[2 * r + k])[c], ?_, ?_⟩
    · simp [tokenAt, hi, hc2]
    · have e50 : NUM_VALUES_PER_LINE = 50 := rfl
      rw [e50] at hent
      rw [hent]
      simp [tokenAt, hi, hc2]

theorem exists_first_bad {α : Type} (p : α → Prop) (L : List α) (h : ∃ x ∈ L, ¬ p x) :
    ∃ pre bad post, L = pre ++ bad :: post ∧ (∀ x ∈ pre, p x) ∧ ¬ p bad := by
  induction L with
  | nil =>
    obtain ⟨x, hx, _⟩ := h
    simp at hx
  | cons a L ih =>
    by_cases ha : p a
    · have h2 : ∃ x ∈ L, ¬ p x := by
        obtain ⟨x, hx, hpx⟩ := h
        rcases List.mem_cons.mp hx with e | e
        · subst e
          exact absurd ha hpx
        · exact ⟨x, e, hpx⟩
      obtain ⟨pre, bad, post, e, hpre, hbad⟩ := ih h2
      refine ⟨a :: pre, bad, post, by rw [e, List.cons_append], ?_, hbad⟩
      intro x hx
      rcases List.mem_cons.mp hx with e2 | e2
      · subst e2
        exact ha
      · exact hpre x e2
    · exact ⟨[], a, L, rfl, by simp, ha⟩

/-- A line with fewer than 50 tokens among the first 200 non-spacer lines: the
parse stops with the count error and `heatmap.csv` is not written. -/
theorem parse_tooFew {F : Type} [Zero F] (atof : List Char → F) (stream : List Char)
    (csvOk : Bool)
    (h : ∃ l ∈ (logicalLines stream).take 200, (strtokAll l).length < 50) :
    (∃ n, n < 50 ∧ (ParseAndPlotHeatmap atof stream csvOk).result = ParseResult.countError n) ∧
    (ParseAndPlotHeatmap atof stream csvOk).csv = none := by
  have h2 : ∃ l ∈ (logicalLines stream).take 200, ¬ 50 ≤ (strtokAll l).length := by
    obtain ⟨l, hl, hn⟩ := h
    exact ⟨l, hl, by omega⟩
  obtain ⟨pre, bad, post, e, hpre, hbad⟩ :=
    exists_first_bad (fun l => 50 ≤ (strtokAll l).length) _ h2
  have hL : logicalLines stream = pre ++ bad :: (post ++ (logicalLines stream).drop 200) := by
    conv_lhs => rw [← List.take_append_drop 200 (logicalLines stream), e]
    simp
  have hprelen : pre.length < 200 := by
    have := congrArg List.length e
    rw [List.length_take, List.length_append, List.length_cons] at this
    omega
  have hns := logicalLines_nonSpacer stream
  rw [hL] at hns
  have hrow := rowLoop_tooFew atof NUM_TOTAL_ROWS 0 pre bad _ [] hns hprelen hpre
    (by simp only [NUM_VALUES_PER_LINE]; omega)
  rw [← hL] at hrow
  refine ⟨⟨(strtokAll bad).length, by omega, ?_⟩, ?_⟩
  · rw [parse_result_eq, hrow]
  · rw [parse_csv_eq, hrow]

/-- Fewer than 200 non-spacer lines, each with at least 50 tokens: the parse
stops with the end-of-file error at the row and chunk line where the lines ran
out, and `heatmap.csv` is not written. -/
theorem parse_eof {F : Type} [Zero F] (atof : List Char → F) (stream : List Char)
    (csvOk : Bool) (hlen : (logicalLines stream).length < 200)
    (hgood : ∀ l ∈ logicalLines stream, 50 ≤ (strtokAll l).length) :
    (ParseAndPlotHeatmap atof stream csvOk).result
      = ParseResult.eofError ((logicalLines stream).length / 2)
          ((logicalLines stream).length % 2) ∧
    (ParseAndPlotHeatmap atof stream csvOk).csv = none := by
  have hrow := rowLoop_eof atof NUM_TOTAL_ROWS 0 (logicalLines stream) []
    (logicalLines_nonSpacer stream) hlen hgood
  rw [Nat.zero_add] at hrow
  constructor
  · rw [parse_result_eq, hrow]
  · rw [parse_csv_eq, hrow]

/-! ### Facts on the sample streams -/

theorem fgetsLines_length (size : Nat) (s buf : List Char) :
    (fgetsLines size s buf).length ≤ s.length + (if buf.isEmpty then 0 else 1) := by
  induction s generalizing buf with
  | nil =>
    unfold fgetsLines
    by_cases h : buf.isEmpty = true <;> simp [h]
  | cons c s ih =>
    unfold fgetsLines
    by_cases hcond : c = '\n' ∨ buf.length + 1 = size - 1
    · rw [if_pos hcond]
      have := ih []
      simp only [List.isEmpty_nil, if_true, Nat.add_zero] at this
      simp only [List.length_cons]
      omega
    · rw [if_neg hcond]
      have := ih (buf ++ [c])
      have hne : (buf ++ [c]).isEmpty = false := by simp
      simp only [hne, Bool.false_eq_true, if_false] at this
      simp only [List.length_cons]
      omega

theorem logicalLines_replicate (n : Nat) (line : List Char) (hw : wholeLine line = true)
    (hn : nonSpacer line = true) :
    logicalLines (List.replicate n line).flatten = List.replicate n line := by
  unfold logicalLines
  rw [fgetsLines_of_lines _ (fun l hl => by rw [List.eq_of_mem_replicate hl]; exact hw)]
  rw [List.filter_eq_self]
  intro l hl
  rw [List.eq_of_mem_replicate hl]
  exact hn

theorem rowsOf_replicate {F : Type} (atof : List Char → F) (n : Nat) (l : List Char) :
    rowsOf atof (List.replicate (2 * n) l)
      = List.replicate n (lineValues atof l ++ lineValues atof l) := by
  induction n with
  | zero => simp [rowsOf]
  | succ n ih =>
    have e : 2 * (n + 1) = 2 * n + 1 + 1 := by ring
    rw [e, List.replicate_succ, List.replicate_succ, rowsOf, ih, List.replicate_succ]

theorem wideStream_lines : logicalLines wideStream = List.replicate 200 (tokenLine ['7'] 51) :=
  logicalLines_replicate 200 _ (by decide) (by decide)

set_option maxRecDepth 100000 in
theorem abcStream_lines :
    logicalLines abcStream = List.replicate 200 (tokenLine ['a', 'b', 'c'] 50) :=
  logicalLines_replicate 200 _ (by decide) (by decide)

theorem truncatedStream_lines :
    logicalLines truncatedStream = List.replicate 199 (tokenLine ['7'] 50) :=
  logicalLines_replicate 199 _ (by decide) (by decide)

theorem replicate_take_all {α : Type} (n : Nat) (x : α) (p : α → Prop) (hp : p x) :
    ∀ l ∈ (List.replicate n x).take 200, p l := by
  intro l hl
  have := List.mem_of_mem_take hl
  rw [List.eq_of_mem_replicate this]
  exact hp

/-! ### C2 -/

/-- C6, as the code has it.  A line the parser consumes needs at least 50
tokens, not exactly 50.  If one of the first 200 non-spacer lines has fewer than
50 tokens, the parse fails with the count error and `heatmap.csv` is not
written; no line is padded.  If there are 200 such lines and each has 50 tokens
or more, the parse succeeds: every row has exactly 100 entries, taken from
tokens 0 to 49 of its two lines, so the tokens of a line beyond the 50th are
left out. -/
theorem short_line_fails_wide_line_cut {F : Type} [Zero F] (atof : List Char → F)
    (stream : List Char) (csvOk : Bool) :
    ((∃ l ∈ (logicalLines stream).take 200, (strtokAll l).length < 50) →
      (∃ n, n < 50 ∧
        (ParseAndPlotHeatmap atof stream csvOk).result = ParseResult.countError n) ∧
      (ParseAndPlotHeatmap atof stream csvOk).csv = none) ∧
    (200 ≤ (logicalLines stream).length →
      (∀ l ∈ (logicalLines stream).take 200, 50 ≤ (strtokAll l).length) →
      ∃ data : List (List F),
        (ParseAndPlotHeatmap atof stream csvOk).result = ParseResult.parsed data ∧
        (ParseAndPlotHeatmap atof stream csvOk).csv = (if csvOk then some data else none) ∧
        data.length = 100 ∧ (∀ row ∈ data, row.length = 100) ∧
        (∀ r k c, r < 100 → k < 2 → c < 50 →
          ∃ tok, tokenAt (logicalLines stream) (2 * r + k) c = some tok ∧
            entry data r (k * 50 + c) = some (atof tok))) := by
  refine ⟨parse_tooFew atof stream csvOk, ?_⟩
  intro hlen hgood
  obtain ⟨h1, h2, h3, h4, h5⟩ := parse_success atof stream csvOk hlen hgood
  exact ⟨_, h1, h2, h3, h4, h5⟩

theorem brokenStream_lines :
    logicalLines brokenStream
      = [tokenLine ['7'] 50, tokenLine ['7'] 50, tokenLine ['7'] 50, shortStream] := by
  have h : brokenStream
      = [tokenLine ['7'] 50, tokenLine ['7'] 50, tokenLine ['7'] 50, shortStream].flatten := by
    simp [brokenStream, List.replicate]
  unfold logicalLines
  rw [h, fgetsLines_of_lines _ (by decide), List.filter_eq_self]
  decide

/-- C6 as amended, on a stream whose fourth line has two tokens and on a stream
of 200 lines of 51 tokens. -/
theorem short_line_fails_wide_line_cut_witness :
    (∃ l ∈ (logicalLines brokenStream).take 200, (strtokAll l).length < 50) ∧
    (ParseAndPlotHeatmap atofModel brokenStream true).csv = none ∧
    200 ≤ (logicalLines wideStream).length ∧
    (∀ l ∈ (logicalLines wideStream).take 200, 50 ≤ (strtokAll l).length) ∧
    ∃ data : List (List ℚ),
      (ParseAndPlotHeatmap atofModel wideStream true).result = ParseResult.parsed data ∧
      (∀ row ∈ data, row.length = 100) :=
  have hbad : ∃ l ∈ (logicalLines brokenStream).take 200, (strtokAll l).length < 50 := by
    rw [brokenStream_lines]
    exact ⟨shortStream, by decide, by decide⟩
  have hlen : 200 ≤ (logicalLines wideStream).length := by
    rw [wideStream_lines, List.length_replicate]
  have hgood : ∀ l ∈ (logicalLines wideStream).take 200, 50 ≤ (strtokAll l).length := by
    rw [wideStream_lines]
    exact replicate_take_all 200 _ (fun l => 50 ≤ (strtokAll l).length) (by decide)
  match (short_line_fails_wide_line_cut atofModel wideStream true).2 hlen hgood with
  | ⟨data, h1, _, _, h4, _⟩ =>
    ⟨hbad, ((short_line_fails_wide_line_cut atofModel brokenStream true).1 hbad).2,
      hlen, hgood, data, h1, h4⟩

/-- C6 as stated fails on lines with more than 50 tokens.  Every line of
`wideStream` has 51 tokens, the parser consumes all 200 of them, and the parse
succeeds: `heatmap.csv` gets 100 rows of 100 entries, the 51st token of each
line silently left out. -/
theorem wide_lines_are_accepted :
    (∀ l ∈ logicalLines wideStream, (strtokAll l).length = 51) ∧
    (logicalLines wideStream).length = 200 ∧
    (ParseAndPlotHeatmap atofModel wideStream true).result
      = ParseResult.parsed (List.replicate 100 (List.replicate 100 (atofModel ['7']))) ∧
    (ParseAndPlotHeatmap atofModel wideStream true).csv
      = some (List.replicate 100 (List.replicate 100 (atofModel ['7']))) := by
  have hlen : 200 ≤ (logicalLines wideStream).length := by
    rw [wideStream_lines, List.length_replicate]
  have hgood : ∀ l ∈ (logicalLines wideStream).take 200, 50 ≤ (strtokAll l).length := by
    rw [wideStream_lines]
    exact replicate_take_all 200 _ (fun l => 50 ≤ (strtokAll l).length) (by decide)
  obtain ⟨h1, h2, _, _, _⟩ := parse_success atofModel wideStream true hlen hgood
  have hv : lineValues atofModel (tokenLine ['7'] 51) = List.replicate 50 (atofModel ['7']) := by
    have ht : (strtokAll (tokenLine ['7'] 51)).take NUM_VALUES_PER_LINE
        = List.replicate 50 ['7'] := by
      decide
    rw [lineValues, ht, List.map_replicate]
  have hrows : rowsOf atofModel ((logicalLines wideStream).take 200)
      = List.replicate 100 (List.replicate 100 (atofModel ['7'])) := by
    rw [wideStream_lines, List.take_replicate]
    have e : min 200 200 = 2 * 100 := by decide
    rw [e, rowsOf_replicate, hv, List.append_replicate_replicate]
  rw [hrows] at h1 h2
  refine ⟨?_, ?_, h1, by simpa using h2⟩
  · rw [wideStream_lines]
    intro l hl
    rw [List.eq_of_mem_replicate hl]
    decide
  · rw [wideStream_lines, List.length_replicate]

/-! ### C7 -/

set_option maxRecDepth 100000 in
theorem abcLine_tokens :
    strtokAll (tokenLine ['a', 'b', 'c'] 50) = List.replicate 50 ['a', 'b', 'c'] := by
  decide

theorem abcStream_first_token :
    tokenAt (logicalLines abcStream) (2 * 0 + 0) 0 = some ['a', 'b', 'c'] := by
  have e0 : (2 * 0 + 0 : Nat) = 0 := rfl
  rw [abcStream_lines, e0]
  unfold tokenAt
  rw [List.getElem?_replicate, if_pos (by decide), Option.some_bind, abcLine_tokens,
    List.getElem?_replicate, if_pos (by decide)]

/-- C7, as the code has it.  The parser converts tokens with `atof` and never
looks at whether a token is a number: when the first 200 non-spacer lines have
at least 50 tokens each the parse succeeds whatever the tokens are, and an
entry whose token is not a floating-point literal holds what `atof` returns for
that token. -/
theorem malformed_token_is_converted {F : Type} [Zero F] (atof : List Char → F)
    (stream : List Char) (csvOk : Bool) (hlen : 200 ≤ (logicalLines stream).length)
    (hgood : ∀ l ∈ (logicalLines stream).take 200, 50 ≤ (strtokAll l).length) :
    ∃ data : List (List F),
      (ParseAndPlotHeatmap atof stream csvOk).result = ParseResult.parsed data ∧
      (ParseAndPlotHeatmap atof stream csvOk).csv = (if csvOk then some data else none) ∧
      (∀ r k c tok, r < 100 → k < 2 → c < 50 →
        tokenAt (logicalLines stream) (2 * r + k) c = some tok →
        isFloatLiteral tok = false →
        entry data r (k * 50 + c) = some (atof tok)) := by
  obtain ⟨h1, h2, _, _, h5⟩ := parse_success atof stream csvOk hlen hgood
  refine ⟨_, h1, h2, ?_⟩
  intro r k c tok hr hk hc htok _
  obtain ⟨tok2, e1, e2⟩ := h5 r k c hr hk hc
  rw [htok] at e1
  rw [Option.some.inj e1]
  exact e2

/-- C7 as amended, on 200 lines of 50 tokens "abc". -/
theorem malformed_token_is_converted_witness :
    200 ≤ (logicalLines abcStream).length ∧
    (∀ l ∈ (logicalLines abcStream).take 200, 50 ≤ (strtokAll l).length) ∧
    tokenAt (logicalLines abcStream) (2 * 0 + 0) 0 = some ['a', 'b', 'c'] ∧
    isFloatLiteral ['a', 'b', 'c'] = false ∧
    ∃ data : List (List ℚ),
      (ParseAndPlotHeatmap atofModel abcStream true).result = ParseResult.parsed data ∧
      entry data 0 (0 * 50 + 0) = some (atofModel ['a', 'b', 'c']) :=
  have hlen : 200 ≤ (logicalLines abcStream).length := by
    rw [abcStream_lines, List.length_replicate]
  have hgood : ∀ l ∈ (logicalLines abcStream).take 200, 50 ≤ (strtokAll l).length := by
    rw [abcStream_lines]
    exact replicate_take_all 200 _ (fun l => 50 ≤ (strtokAll l).length) (by decide)
  have htok : tokenAt (logicalLines abcStream) (2 * 0 + 0) 0 = some ['a', 'b', 'c'] :=
    abcStream_first_token
  have hbad : isFloatLiteral ['a', 'b', 'c'] = false := by decide
  match malformed_token_is_converted atofModel abcStream true hlen hgood with
  | ⟨data, h1, _, h3⟩ =>
    ⟨hlen, hgood, htok, hbad, data, h1,
      h3 0 0 0 ['a', 'b', 'c'] (by decide) (by decide) (by decide) htok hbad⟩

/-- C7 as stated fails on the token "abc".  Every token the parser consumes
from `abcStream` is "abc", which is not a floating-point literal; the parse
succeeds all the same and `heatmap.csv` gets 100 rows of 100 zeros, the value
`atof` gives for "abc". -/
theorem abc_tokens_are_stored_as_zero :
    isFloatLiteral ['a', 'b', 'c'] = false ∧
    (∀ l ∈ logicalLines abcStream, ∀ tok ∈ strtokAll l, tok = ['a', 'b', 'c']) ∧
    atofModel ['a', 'b', 'c'] = 0 ∧
    (ParseAndPlotHeatmap atofModel abcStream true).result
      = ParseResult.parsed (List.replicate 100 (List.replicate 100 (0 : ℚ))) ∧
    (ParseAndPlotHeatmap atofModel abcStream true).csv
      = some (List.replicate 100 (List.replicate 100 (0 : ℚ))) := by
  have hlen : 200 ≤ (logicalLines abcStream).length := by
    rw [abcStream_lines, List.length_replicate]
  have hgood : ∀ l ∈ (logicalLines abcStream).take 200, 50 ≤ (strtokAll l).length := by
    rw [abcStream_lines]
    exact replicate_take_all 200 _ (fun l => 50 ≤ (strtokAll l).length) (by decide)
  obtain ⟨h1, h2, _, _, _⟩ := parse_success atofModel abcStream true hlen hgood
  have hz : atofModel ['a', 'b', 'c'] = 0 := by decide
  have htoks : strtokAll (tokenLine ['a', 'b', 'c'] 50) = List.replicate 50 ['a', 'b', 'c'] :=
    abcLine_tokens
  have hv : lineValues atofModel (tokenLine ['a', 'b', 'c'] 50) = List.replicate 50 (0 : ℚ) := by
    have ht : (List.replicate 50 ['a', 'b', 'c']).take NUM_VALUES_PER_LINE
        = List.replicate 50 ['a', 'b', 'c'] := by
      decide
    rw [lineValues, htoks, ht, List.map_replicate, hz]
  have hrows : rowsOf atofModel ((logicalLines abcStream).take 200)
      = List.replicate 100 (List.replicate 100 (0 : ℚ)) := by
    rw [abcStream_lines, List.take_replicate]
    have e : min 200 200 = 2 * 100 := by decide
    rw [e, rowsOf_replicate, hv, List.append_replicate_replicate]
  rw [hrows] at h1 h2
  refine ⟨by decide, ?_, hz, h1, by simpa using h2⟩
  rw [abcStream_lines]
  intro l hl tok htok
  rw [List.eq_of_mem_replicate hl, htoks] at htok
  exact List.eq_of_mem_replicate htok

/-! ### C8 -/

/-- C8, as the code has it.  For every stream with fewer than 200 non-spacer
lines the parse stops with an error and nothing is emitted: no matrix, and
`heatmap.csv` is not written.  The error is the end-of-stream error, reporting
the row `n / 2` and chunk line `n % 2` at which the `n` lines ran out, when
every line had at least 50 tokens; when some line has fewer, it is the count
error of the first such line.  The loop calls `fgets` once per delivered
buffer, and a stream of `m` bytes yields at most `m` buffers, so the loop ends
on every finite stream. -/
theorem early_end_of_stream_is_an_error {F : Type} [Zero F] (atof : List Char → F)
    (stream : List Char) (csvOk : Bool) (hshort : (logicalLines stream).length < 200) :
    (∀ data, (ParseAndPlotHeatmap atof stream csvOk).result ≠ ParseResult.parsed data) ∧
    (ParseAndPlotHeatmap atof stream csvOk).csv = none ∧
    ((∀ l ∈ logicalLines stream, 50 ≤ (strtokAll l).length) →
      (ParseAndPlotHeatmap atof stream csvOk).result
        = ParseResult.eofError ((logicalLines stream).length / 2)
            ((logicalLines stream).length % 2)) ∧
    ((∃ l ∈ logicalLines stream, (strtokAll l).length < 50) →
      ∃ n, n < 50 ∧
        (ParseAndPlotHeatmap atof stream csvOk).result = ParseResult.countError n) ∧
    (fgetsLines 1024 stream []).length ≤ stream.length := by
  have htake : (logicalLines stream).take 200 = logicalLines stream :=
    List.take_of_length_le (by omega)
  have hbadcase : (∃ l ∈ logicalLines stream, (strtokAll l).length < 50) →
      (∃ n, n < 50 ∧
        (ParseAndPlotHeatmap atof stream csvOk).result = ParseResult.countError n) ∧
      (ParseAndPlotHeatmap atof stream csvOk).csv = none := by
    intro h
    exact parse_tooFew atof stream csvOk (by rw [htake]; exact h)
  have hlenb := fgetsLines_length 1024 stream []
  simp only [List.isEmpty_nil, if_true, Nat.add_zero] at hlenb
  by_cases hall : ∀ l ∈ logicalLines stream, 50 ≤ (strtokAll l).length
  · obtain ⟨e1, e2⟩ := parse_eof atof stream csvOk hshort hall
    refine ⟨?_, e2, fun _ => e1, fun h => (hbadcase h).1, hlenb⟩
    intro data hd
    rw [e1] at hd
    exact ParseResult.noConfusion hd
  · have hex : ∃ l ∈ logicalLines stream, (strtokAll l).length < 50 := by
      by_contra hno
      apply hall
      intro l hl
      by_contra hlt
      exact hno ⟨l, hl, by omega⟩
    obtain ⟨⟨n, hn, e1⟩, e2⟩ := hbadcase hex
    refine ⟨?_, e2, fun h => absurd h hall, fun h => (hbadcase h).1, hlenb⟩
    intro data hd
    rw [e1] at hd
    exact ParseResult.noConfusion hd

/-- C8 as amended, on 199 lines of 50 tokens: the stream runs out at row 99,
chunk line 1. -/
theorem early_end_of_stream_is_an_error_witness :
    (logicalLines truncatedStream).length < 200 ∧
    (∀ l ∈ logicalLines truncatedStream, 50 ≤ (strtokAll l).length) ∧
    (ParseAndPlotHeatmap atofModel truncatedStream true).result = ParseResult.eofError 99 1 ∧
    (ParseAndPlotHeatmap atofModel truncatedStream true).csv = none :=
  have hshort : (logicalLines truncatedStream).length < 200 := by
    rw [truncatedStream_lines, List.length_replicate]
    decide
  have hall : ∀ l ∈ logicalLines truncatedStream, 50 ≤ (strtokAll l).length := by
    rw [truncatedStream_lines]
    intro l hl
    rw [List.eq_of_mem_replicate hl]
    decide
  have hlen : (logicalLines truncatedStream).length = 199 := by
    rw [truncatedStream_lines, List.length_replicate]
  have key := early_end_of_stream_is_an_error atofModel truncatedStream true hshort
  ⟨hshort, hall, by rw [key.2.2.1 hall, hlen], key.2.1⟩

/-- C8 as stated fails on a stream that ends early after a short line.  The
stream "1 2" has one non-spacer line, far fewer than 200, and the parse stops
with the count error for that line, not with the end-of-stream error. -/
theorem short_line_preempts_end_of_stream :
    (logicalLines shortStream).length = 1 ∧
    (ParseAndPlotHeatmap atofModel shortStream true).result = ParseResult.countError 2 ∧
    (∀ r c, (ParseAndPlotHeatmap atofModel shortStream true).result
      ≠ ParseResult.eofError r c) := by
  have h : (ParseAndPlotHeatmap atofModel shortStream true).result
      = ParseResult.countError 2 := by
    decide
  refine ⟨by decide, h, ?_⟩
  intro r c hrc
  rw [h] at hrc
  exact ParseResult.noConfusion hrc

/-! ### Lemmas on the register writes of the sweep -/

theorem writesOf_append (t u : List Event) : writesOf (t ++ u) = writesOf t ++ writesOf u := by
  induction t with
  | nil => rfl
  | cons e t ih =>
    cases e <;> simp [writesOf, ih]

/-- The two guards leave a value between `MIN_VOLT` and `MAX_VOLT`. -/
theorem clampVolt_range (v : ℚ) : (-5 : ℚ) ≤ clampVolt v ∧ clampVolt v ≤ 5 := by
  unfold clampVolt MAX_VOLT MIN_VOLT
  by_cases h1 : v > 5
  · simp only [h1, if_true]
    norm_num
  · simp only [h1, if_false]
    by_cases h2 : v < -5
    · simp only [h2, if_true]
      norm_num
    · simp only [h2, if_false]
      constructor
      · exact not_lt.mp h2
      · exact not_lt.mp h1

/-- The inner loop writes only `current_y`, and only to address 30010. -/
theorem cellLoop_writes (x_start x_step dwell_ms : ℚ) (counter : Nat → ℚ) (cy : ℚ)
    (i : Nat) (s : SweepState) (j : Nat) :
    writesOf (forLoop j (cellBody x_start x_step dwell_ms counter cy i) s).trace
      = writesOf s.trace ++ List.replicate j (30010, cy) := by
  induction j with
  | zero => simp [forLoop]
  | succ j ih =>
    rw [forLoop_succ]
    simp only [cellBody, writesOf_append, writesOf, ih, List.append_nil, List.append_assoc]
    rw [List.replicate_succ']

/-- Every register write of the sweep goes to a DAC address and carries a
clamped value. -/
theorem rowLoop_writes (x_start y_start x_step y_step dwell_ms : ℚ) (counter : Nat → ℚ)
    (n : Nat) (s : SweepState)
    (hs : ∀ w ∈ writesOf s.trace, (w.1 = 30008 ∨ w.1 = 30010) ∧ (-5 : ℚ) ≤ w.2 ∧ w.2 ≤ 5)
    (i : Nat) :
    ∀ w ∈ writesOf (forLoop i (rowBody x_start y_start x_step y_step dwell_ms counter n) s).trace,
      (w.1 = 30008 ∨ w.1 = 30010) ∧ (-5 : ℚ) ≤ w.2 ∧ w.2 ≤ 5 := by
  induction i with
  | zero => exact hs
  | succ i ih =>
    rw [forLoop_succ]
    unfold rowBody
    rw [cellLoop_writes]
    simp only [writesOf_append, writesOf, List.append_nil]
    intro w hw
    have hr := clampVolt_range (y_start + (i : ℚ) * y_step)
    rcases List.mem_append.mp hw with h | h
    · rcases List.mem_append.mp h with h2 | h2
      · exact ih w h2
      · rw [List.mem_singleton.mp h2]
        exact ⟨Or.inl rfl, hr⟩
    · rw [List.eq_of_mem_replicate h]
      exact ⟨Or.inr rfl, hr⟩

theorem sweep_writes (x_start y_start x_end y_end : ℚ) (steps : Int) (dwell_ms : ℚ)
    (counter : Nat → ℚ) :
    ∀ w ∈ writesOf (sweep x_start y_start x_end y_end steps dwell_ms counter).trace,
      (w.1 = 30008 ∨ w.1 = 30010) ∧ (-5 : ℚ) ≤ w.2 ∧ w.2 ≤ 5 := by
  unfold sweep
  apply rowLoop_writes
  intro w hw
  simp [writesOf] at hw

theorem mem_writesTo (address : Nat) (t : List Event) (v : ℚ) (h : v ∈ writesTo address t) :
    (address, v) ∈ writesOf t := by
  unfold writesTo at h
  obtain ⟨w, hw, e⟩ := List.mem_map.mp h
  obtain ⟨hmem, haddr⟩ := List.mem_filter.mp hw
  have ha : w.1 = address := by simpa using haddr
  have : w = (address, v) := by
    rw [← ha, ← e]
  rw [← this]
  exact hmem

/-! ### C11 -/

/-- C11. For every input to `scan_voltages` with `steps >= 2` (any start and end
voltages, any dwell, any counter, whether or not the output file opens), every
register write of the run goes to one of the DAC addresses 30008 and 30010 and
carries a value in the closed interval [-5, 5]: the row values pass the two
guards of lines 60-61 before they are written, and the final resets write 0.
In particular every value written to 30008 and every value written to 30010
lies in [-5, 5]. -/
theorem dac_writes_within_limits (x_start y_start x_end y_end : ℚ) (steps : Int)
    (dwell_ms : ℚ) (counter : Nat → ℚ) (fopenOk : Bool) (h : 2 ≤ steps) :
    (∀ w ∈ writesOf
        (scan_voltages x_start y_start x_end y_end steps dwell_ms counter fopenOk).trace,
      (w.1 = 30008 ∨ w.1 = 30010) ∧ (-5 : ℚ) ≤ w.2 ∧ w.2 ≤ 5) ∧
    (∀ v ∈ writesTo 30008
        (scan_voltages x_start y_start x_end y_end steps dwell_ms counter fopenOk).trace,
      (-5 : ℚ) ≤ v ∧ v ≤ 5) ∧
    (∀ v ∈ writesTo 30010
        (scan_voltages x_start y_start x_end y_end steps dwell_ms counter fopenOk).trace,
      (-5 : ℚ) ≤ v ∧ v ≤ 5) := by
  have hlt : ¬ steps < 2 := by omega
  have hsw := sweep_writes x_start y_start x_end y_end steps dwell_ms counter
  have hall : ∀ w ∈ writesOf
      (scan_voltages x_start y_start x_end y_end steps dwell_ms counter fopenOk).trace,
      (w.1 = 30008 ∨ w.1 = 30010) ∧ (-5 : ℚ) ≤ w.2 ∧ w.2 ≤ 5 := by
    cases fopenOk
    · simp only [scan_voltages, hlt, if_false, if_true]
      exact hsw
    · simp only [scan_voltages, hlt, if_false, Bool.true_eq_false, writesOf_append, writesOf]
      intro w hw
      rcases List.mem_append.mp hw with h1 | h1
      · exact hsw w h1
      · simp only [List.mem_cons, List.mem_nil_iff, or_false] at h1
        rcases h1 with e | e
        · rw [e]
          exact ⟨Or.inl rfl, by norm_num, by norm_num⟩
        · rw [e]
          exact ⟨Or.inr rfl, by norm_num, by norm_num⟩
  refine ⟨hall, ?_, ?_⟩
  · intro v hv
    exact (hall _ (mem_writesTo 30008 _ v hv)).2
  · intro v hv
    exact (hall _ (mem_writesTo 30010 _ v hv)).2

/-- C11 on a plan whose raw voltages leave the range: X from 7 to -7, Y from 9
to -9, two steps. -/
theorem dac_writes_within_limits_witness :
    (2 : Int) ≤ 2 ∧
    (∀ w ∈ writesOf (scan_voltages 7 9 (-7) (-9) 2 1 (fun _ => 0) true).trace,
      (w.1 = 30008 ∨ w.1 = 30010) ∧ (-5 : ℚ) ≤ w.2 ∧ w.2 ≤ 5) ∧
    writesOf (scan_voltages 7 9 (-7) (-9) 2 1 (fun _ => 0) true).trace
      = [(30008, 5), (30010, 5), (30010, 5), (30008, -5), (30010, -5), (30010, -5),
         (30008, 0), (30010, 0)] :=
  ⟨by decide,
   (dac_writes_within_limits 7 9 (-7) (-9) 2 1 (fun _ => 0) true (by decide)).1,
   by
    simp [scan_voltages, sweep, forLoop, rowBody, cellBody, writesOf, clampVolt,
      MAX_VOLT, MIN_VOLT]
    norm_num⟩

/-! ### C12 -/

/-- C12. For every call of `scan_voltages` with `steps < 2` the plan is rejected
at line 36, before anything else happens: the trace of register writes,
register reads and sleeps is empty (so no write and no counter read), no matrix
is allocated and `scan_matrix.txt` is never opened or written. -/
theorem invalid_plan_does_no_io (x_start y_start x_end y_end : ℚ) (steps : Int)
    (dwell_ms : ℚ) (counter : Nat → ℚ) (fopenOk : Bool) (h : steps < 2) :
    (scan_voltages x_start y_start x_end y_end steps dwell_ms counter fopenOk).trace = [] ∧
    writesOf (scan_voltages x_start y_start x_end y_end steps dwell_ms counter fopenOk).trace
      = [] ∧
    readsOf 3136
      (scan_voltages x_start y_start x_end y_end steps dwell_ms counter fopenOk).trace = 0 ∧
    (scan_voltages x_start y_start x_end y_end steps dwell_ms counter fopenOk).matrix = none ∧
    (scan_voltages x_start y_start x_end y_end steps dwell_ms counter fopenOk).file = none := by
  simp [scan_voltages, h, writesOf, readsOf]

/-- C12 on a plan with one step. -/
theorem invalid_plan_does_no_io_witness :
    (1 : Int) < 2 ∧
    (scan_voltages 1 2 3 4 1 1 (fun _ => 0) true).trace = [] ∧
    writesOf (scan_voltages 1 2 3 4 1 1 (fun _ => 0) true).trace = [] ∧
    readsOf 3136 (scan_voltages 1 2 3 4 1 1 (fun _ => 0) true).trace = 0 ∧
    (scan_voltages 1 2 3 4 1 1 (fun _ => 0) true).matrix = none ∧
    (scan_voltages 1 2 3 4 1 1 (fun _ => 0) true).file = none :=
  ⟨by decide, invalid_plan_does_no_io 1 2 3 4 1 1 (fun _ => 0) true (by decide)⟩

end Qscopes
